import Mathlib

/-!
# lab1_graf: geometry table, input handling and frame timing of `src/main.cpp`

A shallow embedding of the single translation unit of the program.

* The program is translated once, over an explicit record `Arith` of the arithmetic
  operations it performs on `float` and `double`.  Two interpretations are given:
  `exact`, in which every operation is the rational one, and `ieee`, in which `float` is
  IEEE-754 binary32 and `double` is binary64, every operation rounds to nearest (ties to
  even), overflows to an infinity and propagates NaN; expressions are evaluated in the
  precision of their type.  The sign of zero is not tracked: the only division of the
  program has the conversion of an `int` as divisor, and no other operation distinguishes
  the two zeros.
* `int nbFrames` is a 32-bit two's-complement integer: `++nbFrames` wraps (`wrap32`).
* The windowing library is an input: per iteration it supplies the key states read by
  `glfwGetKey`, the value returned by `glfwGetTime`, and whether `glfwPollEvents`
  delivered a close request.
-/

namespace Lab1Graf

/-! ## Geometry table (main.cpp lines 28-78) -/

/-- The array `vertices`: 2D positions stored as consecutive `x, y` pairs. -/
def vertices : List ℚ :=
  [ -0.4, 0.6,     -- 0
    -0.2, 0.6,     -- 1
    -0.05, 0.75,   -- 2
    0.25, 0.75,    -- 3
    0.1, 0.6,      -- 4
    -0.4, 0.4,     -- 5
    -0.20, 0.4,    -- 6
    0.20, 0.00,    -- 7
    -0.2, 0.15,    -- 8
    -0.35, 0.00,   -- 9
    -0.20, 0.00,   -- 10
    -0.20, -0.15,  -- 11
    0.00, -0.2,    -- 12
    0.2, -0.4,     -- 13
    -0.2, -0.4,    -- 14
    -0.2, -0.2 ]   -- 15

/-- The array `indices`: element list of the triangle (fill) draw. -/
def indices : List Nat :=
  [ 0, 5, 6,
    0, 1, 6,
    1, 2, 4,
    3, 2, 4,
    6, 10, 7,
    8, 9, 11,
    10, 7, 13,
    12, 13, 14,
    14, 15, 12 ]

/-- The array `lineIndices`: element list of the line (outline) draw. -/
def lineIndices : List Nat :=
  [ 0, 1,
    0, 5,
    5, 6,
    1, 6,
    1, 2,
    2, 3,
    3, 4,
    1, 4,
    6, 7,
    7, 10,
    6, 10,
    8, 9,
    9, 11,
    10, 11,
    10, 13,
    13, 14,
    12, 14,
    14, 15,
    12, 15,
    7, 13 ]

/-- Floats per vertex: the attribute layout of `glVertexAttribPointer(0, 2, GL_FLOAT, ...)`
with stride `2 * sizeof(float)`. -/
def floatsPerVertex : Nat := 2

/-- Number of vertices held by the vertex buffer (`sizeof(vertices)` bytes, two floats
per vertex). -/
def vertexCount : Nat := vertices.length / floatsPerVertex

/-- Primitive kinds used by the two draws. -/
inductive Primitive where
  | triangles
  | lines
  deriving DecidableEq, Repr

/-- One `glDrawElements(mode, count, GL_UNSIGNED_INT, 0)` call together with the index
of the vertex array object bound when it is issued. -/
structure DrawCall where
  vao : Nat
  mode : Primitive
  count : Nat
  deriving DecidableEq, Repr

/-- Element buffer attached to each vertex array object during buffer setup:
`VAOs[0]` gets `EBOs[0]` filled from `indices`, `VAOs[1]` gets `EBOs[1]` filled from
`lineIndices`. -/
def elementBuffer (vao : Nat) : List Nat :=
  if vao = 0 then indices else if vao = 1 then lineIndices else []

/-- The draw calls of one loop iteration, in submission order (lines 283-291). -/
def drawCalls : List DrawCall :=
  [ { vao := 0, mode := Primitive.triangles, count := 27 },
    { vao := 1, mode := Primitive.lines, count := 40 } ]

/-- Indices consumed by a draw call: the first `count` entries of the bound element
buffer (offset `0`). -/
def DrawCall.fetched (c : DrawCall) : List Nat :=
  (elementBuffer c.vao).take c.count

/-! ## Arithmetic -/

/-- Nearest integer, ties to the even one. -/
def roundHE (q : ℚ) : ℤ :=
  if q - ⌊q⌋ < 1 / 2 then ⌊q⌋
  else if 1 / 2 < q - ⌊q⌋ then ⌊q⌋ + 1
  else if ⌊q⌋ % 2 = 0 then ⌊q⌋ else ⌊q⌋ + 1

/-- A binary floating-point format: number of stored fraction bits, exponent of the
smallest normal binade, exponent of the largest binade. -/
structure Fmt where
  frac : ℕ
  emin : ℤ
  emax : ℤ
  deriving DecidableEq, Repr

/-- The format of `float`. -/
def binary32 : Fmt := { frac := 23, emin := -126, emax := 127 }

/-- The format of `double`. -/
def binary64 : Fmt := { frac := 52, emin := -1022, emax := 1023 }

/-- Exponent of the spacing of the format at magnitude `|q|` (subnormals share the
spacing of the smallest normal binade). -/
def Fmt.ulpExp (F : Fmt) (q : ℚ) : ℤ := max (Int.log 2 |q|) F.emin - (F.frac : ℤ)

/-- Round to nearest, ties to even, with unbounded exponent range upwards. -/
def Fmt.roundFin (F : Fmt) (q : ℚ) : ℚ := (roundHE (q / 2 ^ F.ulpExp q) : ℚ) * 2 ^ F.ulpExp q

/-- Largest finite value of the format. -/
def Fmt.maxFin (F : Fmt) : ℚ := (2 ^ (F.frac + 1) - 1) * 2 ^ (F.emax - (F.frac : ℤ))

/-- A rational is a value of the format when rounding leaves it alone and it is in
range. -/
@[reducible] def Fmt.isRep (F : Fmt) (q : ℚ) : Prop := F.roundFin q = q ∧ |q| ≤ F.maxFin

/-- Floating-point data: NaN, the two infinities and the finite values. -/
inductive FP where
  | nan
  | ninf
  | fin (q : ℚ)
  | pinf
  deriving DecidableEq, Repr

/-- IEEE rounding of a real result: round to nearest even, overflow to infinity. -/
def Fmt.round (F : Fmt) (q : ℚ) : FP :=
  if F.maxFin < F.roundFin q then FP.pinf
  else if F.roundFin q < -F.maxFin then FP.ninf
  else FP.fin (F.roundFin q)

/-- The comparison `a <= b` (false when either side is NaN). -/
def FP.leb : FP → FP → Bool
  | FP.nan, _ => false
  | _, FP.nan => false
  | FP.ninf, _ => true
  | _, FP.pinf => true
  | FP.fin a, FP.fin b => decide (a ≤ b)
  | FP.fin _, FP.ninf => false
  | FP.pinf, _ => false

/-- The comparison `a < b` (false when either side is NaN). -/
def FP.ltb : FP → FP → Bool
  | FP.nan, _ => false
  | _, FP.nan => false
  | _, FP.ninf => false
  | FP.pinf, _ => false
  | FP.fin a, FP.fin b => decide (a < b)
  | FP.ninf, _ => true
  | FP.fin _, FP.pinf => true

/-- Floating-point addition in format `F`. -/
def FP.add (F : Fmt) : FP → FP → FP
  | FP.nan, _ => FP.nan
  | _, FP.nan => FP.nan
  | FP.pinf, FP.ninf => FP.nan
  | FP.ninf, FP.pinf => FP.nan
  | FP.pinf, _ => FP.pinf
  | _, FP.pinf => FP.pinf
  | FP.ninf, _ => FP.ninf
  | _, FP.ninf => FP.ninf
  | FP.fin a, FP.fin b => F.round (a + b)

/-- Floating-point subtraction in format `F`. -/
def FP.sub (F : Fmt) : FP → FP → FP
  | FP.nan, _ => FP.nan
  | _, FP.nan => FP.nan
  | FP.pinf, FP.pinf => FP.nan
  | FP.ninf, FP.ninf => FP.nan
  | FP.pinf, _ => FP.pinf
  | _, FP.pinf => FP.ninf
  | FP.ninf, _ => FP.ninf
  | _, FP.ninf => FP.pinf
  | FP.fin a, FP.fin b => F.round (a - b)

/-- Floating-point division in format `F`.  A zero divisor is the positive zero. -/
def FP.div (F : Fmt) : FP → FP → FP
  | FP.nan, _ => FP.nan
  | _, FP.nan => FP.nan
  | FP.fin a, FP.fin b =>
    if b = 0 then (if a = 0 then FP.nan else if 0 < a then FP.pinf else FP.ninf)
    else F.round (a / b)
  | FP.fin _, _ => FP.fin 0
  | FP.pinf, FP.fin b => if 0 ≤ b then FP.pinf else FP.ninf
  | FP.ninf, FP.fin b => if 0 ≤ b then FP.ninf else FP.pinf
  | _, _ => FP.nan

/-- Conversion of a floating-point datum to format `F`. -/
def FP.cast (F : Fmt) : FP → FP
  | FP.fin a => F.round a
  | x => x

/-- The operations the program performs on `float` (type `F`) and `double` (type `D`):
`litF`/`litD` read a literal, `addF`/`subF` are `+=`/`-=` on `float`, `subD`, `addD`,
`divD`, `geD` are `-`, `+`, `/`, `>=` on `double`, `ofIntD` converts an `int` to
`double` and `toF` is `static_cast<float>`. -/
structure Arith (F D : Type) where
  litF : ℚ → F
  litD : ℚ → D
  addF : F → F → F
  subF : F → F → F
  subD : D → D → D
  addD : D → D → D
  divD : D → D → D
  geD : D → D → Bool
  ofIntD : ℤ → D
  toF : D → F

/-- Exact arithmetic: every operation is the rational one. -/
def exact : Arith ℚ ℚ where
  litF q := q
  litD q := q
  addF a b := a + b
  subF a b := a - b
  subD a b := a - b
  addD a b := a + b
  divD a b := a / b
  geD a b := decide (b ≤ a)
  ofIntD n := (n : ℚ)
  toF a := a

/-- Machine arithmetic: `float` is binary32, `double` is binary64. -/
def ieee : Arith FP FP where
  litF q := binary32.round q
  litD q := binary64.round q
  addF := FP.add binary32
  subF := FP.sub binary32
  subD := FP.sub binary64
  addD := FP.add binary64
  divD := FP.div binary64
  geD a b := FP.leb b a
  ofIntD n := binary64.round (n : ℚ)
  toF := FP.cast binary32

/-- Two's-complement wrap of an integer to 32 bits: the value an `int` holds. -/
def wrap32 (n : ℤ) : ℤ := (n + 2147483648) % 4294967296 - 2147483648

/-! ## Program state and input handling -/

/-- Key states reported by `glfwGetKey` (`true` is `GLFW_PRESS`). -/
structure Keys where
  escape : Bool
  w : Bool
  up : Bool
  a : Bool
  left : Bool
  s : Bool
  down : Bool
  d : Bool
  right : Bool
  deriving DecidableEq, Repr

/-- Mutable state of the program that the render loop reads and writes: the globals
`xOffset`, `yOffset`, `moveBy` (`float`), the window's should-close flag, and the locals
`lastTime` (`double`), `nbFrames` (`int`) of `main`. -/
structure State (F D : Type) where
  xOffset : F
  yOffset : F
  moveBy : F
  shouldClose : Bool
  lastTime : D
  nbFrames : ℤ
  deriving DecidableEq, Repr

/-- The function `processInput` (lines 317-345): the five `if` statements in source
order. -/
def processInput {F D : Type} (A : Arith F D) (k : Keys) (st : State F D) : State F D :=
  let st := if k.escape then { st with shouldClose := true } else st
  let st := if k.w || k.up then { st with yOffset := A.addF st.yOffset st.moveBy } else st
  let st := if k.a || k.left then { st with xOffset := A.subF st.xOffset st.moveBy } else st
  let st := if k.s || k.down then { st with yOffset := A.subF st.yOffset st.moveBy } else st
  let st := if k.d || k.right then { st with xOffset := A.addF st.xOffset st.moveBy } else st
  st

/-- The timing statements of the loop body (lines 253-261): `++nbFrames`, the assignment
`moveBy = static_cast<float>((currentTime - lastTime) / nbFrames)`, then the reset
`nbFrames = 0; lastTime += 1.0` when `currentTime - lastTime >= 1.0`. -/
def timingStep {F D : Type} (A : Arith F D) (st : State F D) (currentTime : D) : State F D :=
  let st := { st with nbFrames := wrap32 (st.nbFrames + 1) }
  let st := { st with
    moveBy := A.toF (A.divD (A.subD currentTime st.lastTime) (A.ofIntD st.nbFrames)) }
  if A.geD (A.subD currentTime st.lastTime) (A.litD 1.0) then
    { st with nbFrames := 0, lastTime := A.addD st.lastTime (A.litD 1.0) }
  else st

/-- What the environment supplies during one loop iteration. -/
structure Frame (D : Type) where
  keys : Keys
  currentTime : D
  closeEvent : Bool
  deriving DecidableEq, Repr

/-- One iteration of the render loop (lines 249-295).  Clearing, uniform upload and the
draw calls do not write any field of `State`; `glfwPollEvents` may raise the
should-close flag and never lowers it. -/
def loopBody {F D : Type} (A : Arith F D) (st : State F D) (f : Frame D) : State F D :=
  let st := processInput A f.keys st
  let st := timingStep A st f.currentTime
  { st with shouldClose := st.shouldClose || f.closeEvent }

/-- The `while (!glfwWindowShouldClose(window))` loop run against a finite supply of
frames.  Returns the number of iterations executed and the state in which the loop
stopped; the loop has left through its condition exactly when that state has
`shouldClose = true`. -/
def renderLoop {F D : Type} (A : Arith F D) : State F D → List (Frame D) → Nat × State F D
  | st, [] => (0, st)
  | st, f :: rest =>
    if st.shouldClose then (0, st)
    else
      let r := renderLoop A (loopBody A st f) rest
      (r.1 + 1, r.2)

/-- State on entry to the render loop: the initialisers of the globals (lines 19-21),
a fresh window, `lastTime = glfwGetTime()` and `nbFrames = 0` (lines 241-242). -/
def initState {F D : Type} (A : Arith F D) (t0 : D) : State F D :=
  { xOffset := A.litF 0.25, yOffset := A.litF (-1.0), moveBy := A.litF 0.0,
    shouldClose := false, lastTime := t0, nbFrames := 0 }

/-- The function `main`: `some c` is the returned exit code, `none` means the supplied
frames ran out while the loop was still running.  `windowCreated` tells whether
`glfwCreateWindow` returned a window, `gladLoaded` whether `gladLoadGLLoader`
succeeded. -/
def main {F D : Type} (A : Arith F D) (windowCreated gladLoaded : Bool) (t0 : D)
    (frames : List (Frame D)) : Option Int :=
  if !windowCreated then some (-1)
  else if !gladLoaded then some (-1)
  else
    let r := renderLoop A (initState A t0) frames
    if r.2.shouldClose then some 0 else none

/-- Indicator of a held key group as a number. -/
def held (b : Bool) : ℚ := if b then 1 else 0

/-- Key state with every key released. -/
def noKeys : Keys :=
  { escape := false, w := false, up := false, a := false, left := false,
    s := false, down := false, d := false, right := false }

/-- Key state with only `D` held. -/
def onlyD : Keys := { noKeys with d := true }

/-- Key state with `W` and `D` held together. -/
def keysWD : Keys := { noKeys with w := true, d := true }

/-- Repeated calls of `processInput` with the same key state, `moveBy` being set to
`m` before each call. -/
def holdFrames {F D : Type} (A : Arith F D) (k : Keys) (m : F) : Nat → State F D → State F D
  | 0, st => st
  | n + 1, st => holdFrames A k m n (processInput A k { st with moveBy := m })

/-- A frame in which only `D` is held, the clock reads `t` and no close request
arrives. -/
def frameD {D : Type} (t : D) : Frame D := { keys := onlyD, currentTime := t, closeEvent := false }

/-- A frame in which no key is held, the clock reads `t` and no close request arrives. -/
def frameIdle {D : Type} (t : D) : Frame D :=
  { keys := noKeys, currentTime := t, closeEvent := false }

/-- A frame in which only Escape is held. -/
def frameEscape {D : Type} (t : D) : Frame D :=
  { keys := { noKeys with escape := true }, currentTime := t, closeEvent := false }

/-- Value assigned to `moveBy` by the iteration fed with `f`, after the iterations fed
with `earlier` have run from `st`. -/
def moveByAt {F D : Type} (A : Arith F D) (st : State F D) (earlier : List (Frame D))
    (f : Frame D) : F :=
  (loopBody A (earlier.foldl (loopBody A) st) f).moveBy

/-- Value of `nbFrames` used as divisor by the iteration that follows the iterations fed
with `earlier`: the counter after its increment. -/
def divisorAt {F D : Type} (A : Arith F D) (st : State F D) (earlier : List (Frame D)) : ℤ :=
  wrap32 ((earlier.foldl (loopBody A) st).nbFrames + 1)

/-- The `double` nearest to the decimal `0.059` (`0x1.e353f7ced9168p-5`). -/
def dbl0059 : ℚ := 1062849512059437 / 18014398509481984

/-- The `double` nearest to the decimal `1.059` (`0x1.0f1a9fbe76c8bp+0`). -/
def dbl1059 : ℚ := 4769312005385355 / 4503599627370496

/-- The machine state at loop entry with `lastTime = last` and the frame counter set to
`n`. -/
def stateAt (last : FP) (n : ℤ) : State FP FP := { initState ieee last with nbFrames := n }

/-- The `double` value of the expression `currentTime - lastTime`. -/
def elapsed (st : State FP FP) (currentTime : FP) : FP := ieee.subD currentTime st.lastTime

/-! ## Rounding -/

theorem roundHE_sub_le (q : ℚ) : (roundHE q : ℚ) - q ≤ 1 / 2 ∧ q - roundHE q ≤ 1 / 2 := by
  have h1 := Int.floor_le q
  have h2 := Int.lt_floor_add_one q
  unfold roundHE
  split_ifs <;> push_cast <;> constructor <;> linarith

theorem roundHE_mono {a b : ℚ} (h : a ≤ b) : roundHE a ≤ roundHE b := by
  by_contra hc
  push_neg at hc
  have h1 := (roundHE_sub_le a).1
  have h2 := (roundHE_sub_le b).2
  have h3 : (roundHE b : ℚ) + 1 ≤ roundHE a := by exact_mod_cast hc
  have hab : a = b := by linarith
  subst hab
  exact lt_irrefl _ hc

theorem roundHE_eq_of_abs_lt (z : ℚ) (k : ℤ) (h : |z - k| < 1 / 2) : roundHE z = k := by
  obtain ⟨h1, h2⟩ := roundHE_sub_le z
  rw [abs_lt] at h
  have h3 : ((roundHE z - k : ℤ) : ℚ) < 1 := by push_cast; linarith
  have h4 : (-1 : ℚ) < ((roundHE z - k : ℤ) : ℚ) := by push_cast; linarith
  have h5 : roundHE z - k < 1 := by exact_mod_cast h3
  have h6 : -1 < roundHE z - k := by exact_mod_cast h4
  omega

theorem roundHE_intCast (k : ℤ) : roundHE (k : ℚ) = k :=
  roundHE_eq_of_abs_lt _ k (by simp)

theorem roundHE_tie (z : ℚ) (k : ℤ) (h : z = k + 1 / 2) :
    roundHE z = if k % 2 = 0 then k else k + 1 := by
  have hf : ⌊z⌋ = k := by
    rw [Int.floor_eq_iff]; constructor <;> linarith
  unfold roundHE
  rw [hf]
  have h1 : ¬ (z - (k : ℚ) < 1 / 2) := by rw [h]; norm_num
  have h2 : ¬ (1 / 2 < z - (k : ℚ)) := by rw [h]; norm_num
  simp only [h1, h2, if_false]

theorem roundHE_neg (z : ℚ) : roundHE (-z) = -roundHE z := by
  obtain ⟨h1, h2⟩ := roundHE_sub_le z
  by_cases hlt : |z - roundHE z| < 1 / 2
  · apply roundHE_eq_of_abs_lt
    push_cast
    rw [show -z - -(roundHE z : ℚ) = -(z - roundHE z) by ring, abs_neg]
    exact hlt
  · have hf1 := Int.floor_le z
    have hf2 := Int.lt_floor_add_one z
    have htie : z = ⌊z⌋ + 1 / 2 := by
      by_contra hne
      apply hlt
      unfold roundHE at h1 h2 ⊢
      rw [abs_lt]
      split_ifs at h1 h2 ⊢ with c1 c2 c3
      · constructor <;> linarith
      · push_cast at *; constructor <;> linarith
      · exfalso; apply hne; linarith
      · exfalso; apply hne; linarith
    have htie' : -z = ((-(⌊z⌋ + 1) : ℤ) : ℚ) + 1 / 2 := by push_cast; linarith
    rw [roundHE_tie z ⌊z⌋ htie, roundHE_tie (-z) _ htie']
    split_ifs <;> omega

theorem two_zpow_pos (e : ℤ) : (0 : ℚ) < 2 ^ e := zpow_pos (by norm_num) e

theorem two_zpow_le {a b : ℤ} (h : a ≤ b) : (2 : ℚ) ^ a ≤ 2 ^ b :=
  zpow_le_zpow_right₀ (by norm_num) h

theorem log_le_self {q : ℚ} (hq : 0 < q) : (2 : ℚ) ^ Int.log 2 q ≤ q := by
  have := Int.zpow_log_le_self (b := 2) (by norm_num) hq
  simpa using this

theorem lt_log_succ (q : ℚ) : q < (2 : ℚ) ^ (Int.log 2 q + 1) := by
  have := Int.lt_zpow_succ_log_self (b := 2) (by norm_num) q
  simpa using this

theorem log_eq_of_bounds {q : ℚ} {e : ℤ} (h1 : (2 : ℚ) ^ e ≤ q) (h2 : q < (2 : ℚ) ^ (e + 1)) :
    Int.log 2 q = e := by
  have hq : 0 < q := lt_of_lt_of_le (two_zpow_pos e) h1
  have ha : e ≤ Int.log 2 q := by
    rw [← Int.zpow_le_iff_le_log (by norm_num) hq]
    simpa using h1
  have hb : Int.log 2 q < e + 1 := by
    rw [← Int.lt_zpow_iff_log_lt (by norm_num) hq]
    simpa using h2
  omega

theorem Fmt.ulpExp_neg (F : Fmt) (q : ℚ) : F.ulpExp (-q) = F.ulpExp q := by
  simp [Fmt.ulpExp]

theorem Fmt.roundFin_neg (F : Fmt) (q : ℚ) : F.roundFin (-q) = -F.roundFin q := by
  simp [Fmt.roundFin, Fmt.ulpExp_neg, neg_div, roundHE_neg]

theorem Fmt.roundFin_nonneg (F : Fmt) {q : ℚ} (hq : 0 ≤ q) : 0 ≤ F.roundFin q := by
  unfold Fmt.roundFin
  have hu := two_zpow_pos (F.ulpExp q)
  have h0 : roundHE 0 ≤ roundHE (q / 2 ^ F.ulpExp q) := roundHE_mono (div_nonneg hq hu.le)
  rw [show (0 : ℚ) = ((0 : ℤ) : ℚ) by simp, roundHE_intCast] at h0
  have : (0 : ℚ) ≤ (roundHE (q / 2 ^ F.ulpExp q) : ℚ) := by exact_mod_cast h0
  positivity

/-- For positive `q` the rounded value does not exceed the next power of two. -/
theorem Fmt.roundFin_le_pow (F : Fmt) {q : ℚ} (hq : 0 < q) :
    F.roundFin q ≤ 2 ^ (max (Int.log 2 q) F.emin + 1) := by
  have habs : |q| = q := abs_of_pos hq
  unfold Fmt.roundFin Fmt.ulpExp
  rw [habs]
  set E := max (Int.log 2 q) F.emin with hE
  have hu := two_zpow_pos (E - (F.frac : ℤ))
  have h1 : q < 2 ^ (E + 1) :=
    lt_of_lt_of_le (lt_log_succ q) (two_zpow_le (by omega))
  have h2 : q / 2 ^ (E - (F.frac : ℤ)) ≤ (((2 : ℤ) ^ (F.frac + 1) : ℤ) : ℚ) := by
    rw [div_le_iff₀ hu]
    push_cast
    rw [← zpow_natCast, ← zpow_add₀ (by norm_num : (2 : ℚ) ≠ 0)]
    have : ((F.frac + 1 : ℕ) : ℤ) + (E - (F.frac : ℤ)) = E + 1 := by push_cast; ring
    rw [this]
    exact h1.le
  have h3 := roundHE_mono h2
  rw [roundHE_intCast] at h3
  have h4 : (roundHE (q / 2 ^ (E - (F.frac : ℤ))) : ℚ) ≤ (2 : ℚ) ^ (F.frac + 1) := by
    exact_mod_cast h3
  calc (roundHE (q / 2 ^ (E - (F.frac : ℤ))) : ℚ) * 2 ^ (E - (F.frac : ℤ))
      ≤ (2 : ℚ) ^ (F.frac + 1) * 2 ^ (E - (F.frac : ℤ)) :=
        mul_le_mul_of_nonneg_right h4 hu.le
    _ = 2 ^ (E + 1) := by
        rw [← zpow_natCast, ← zpow_add₀ (by norm_num : (2 : ℚ) ≠ 0)]
        congr 1
        push_cast
        ring

/-- For positive normal `q` the rounded value is at least the power of two below `q`. -/
theorem Fmt.pow_le_roundFin (F : Fmt) {q : ℚ} (hq : 0 < q) (hn : F.emin ≤ Int.log 2 q) :
    (2 : ℚ) ^ Int.log 2 q ≤ F.roundFin q := by
  have habs : |q| = q := abs_of_pos hq
  unfold Fmt.roundFin Fmt.ulpExp
  rw [habs, max_eq_left hn]
  set E := Int.log 2 q with hE
  have hu := two_zpow_pos (E - (F.frac : ℤ))
  have h1 : (2 : ℚ) ^ E ≤ q := log_le_self hq
  have h2 : (((2 : ℤ) ^ F.frac : ℤ) : ℚ) ≤ q / 2 ^ (E - (F.frac : ℤ)) := by
    rw [le_div_iff₀ hu]
    push_cast
    rw [← zpow_natCast, ← zpow_add₀ (by norm_num : (2 : ℚ) ≠ 0)]
    have : ((F.frac : ℕ) : ℤ) + (E - (F.frac : ℤ)) = E := by ring
    rw [this]
    exact h1
  have h3 := roundHE_mono h2
  rw [roundHE_intCast] at h3
  have h4 : (2 : ℚ) ^ F.frac ≤ (roundHE (q / 2 ^ (E - (F.frac : ℤ))) : ℚ) := by
    exact_mod_cast h3
  calc (2 : ℚ) ^ E = (2 : ℚ) ^ F.frac * 2 ^ (E - (F.frac : ℤ)) := by
        rw [← zpow_natCast, ← zpow_add₀ (by norm_num : (2 : ℚ) ≠ 0)]
        congr 1
        ring
    _ ≤ (roundHE (q / 2 ^ (E - (F.frac : ℤ))) : ℚ) * 2 ^ (E - (F.frac : ℤ)) :=
        mul_le_mul_of_nonneg_right h4 hu.le

theorem Fmt.roundFin_mono_pos (F : Fmt) {a b : ℚ} (ha : 0 < a) (hab : a ≤ b) :
    F.roundFin a ≤ F.roundFin b := by
  have hb : 0 < b := lt_of_lt_of_le ha hab
  have hlog : Int.log 2 a ≤ Int.log 2 b := Int.log_mono_right ha hab
  by_cases hE : max (Int.log 2 a) F.emin = max (Int.log 2 b) F.emin
  · have hu : F.ulpExp a = F.ulpExp b := by
      simp only [Fmt.ulpExp, abs_of_pos ha, abs_of_pos hb, hE]
    unfold Fmt.roundFin
    rw [hu]
    have hpos := two_zpow_pos (F.ulpExp b)
    have h1 : a / 2 ^ F.ulpExp b ≤ b / 2 ^ F.ulpExp b := div_le_div_of_nonneg_right hab hpos.le
    have h2 : (roundHE (a / 2 ^ F.ulpExp b) : ℚ) ≤ roundHE (b / 2 ^ F.ulpExp b) := by
      exact_mod_cast roundHE_mono h1
    exact mul_le_mul_of_nonneg_right h2 hpos.le
  · have hlt : max (Int.log 2 a) F.emin < Int.log 2 b ∧ F.emin ≤ Int.log 2 b := by
      rcases le_total (Int.log 2 b) F.emin with h | h
      · exfalso; apply hE
        rw [max_eq_right h, max_eq_right (le_trans hlog h)]
      · refine ⟨?_, h⟩
        rcases lt_or_eq_of_le hlog with h' | h'
        · rcases le_total (Int.log 2 a) F.emin with h'' | h''
          · rw [max_eq_right h'']
            rcases lt_or_eq_of_le h with h3 | h3
            · exact h3
            · exfalso; apply hE
              rw [max_eq_right h'', ← h3, max_self]
          · rw [max_eq_left h'']; exact h'
        · exfalso; apply hE; rw [h']
    calc F.roundFin a ≤ 2 ^ (max (Int.log 2 a) F.emin + 1) := F.roundFin_le_pow ha
      _ ≤ 2 ^ Int.log 2 b := two_zpow_le (by omega)
      _ ≤ F.roundFin b := F.pow_le_roundFin hb hlt.2

theorem Fmt.roundFin_zero (F : Fmt) : F.roundFin 0 = 0 := by
  unfold Fmt.roundFin
  rw [zero_div, show (0 : ℚ) = ((0 : ℤ) : ℚ) by simp, roundHE_intCast]
  simp

/-- Rounding to nearest is monotone. -/
theorem Fmt.roundFin_mono (F : Fmt) {a b : ℚ} (hab : a ≤ b) : F.roundFin a ≤ F.roundFin b := by
  rcases lt_trichotomy 0 a with ha | ha | ha
  · exact F.roundFin_mono_pos ha hab
  · subst ha
    rw [F.roundFin_zero]
    exact F.roundFin_nonneg hab
  · have hna : F.roundFin a ≤ 0 := by
      have := F.roundFin_nonneg (show (0 : ℚ) ≤ -a by linarith)
      rw [F.roundFin_neg] at this
      linarith
    rcases le_or_lt 0 b with hb | hb
    · exact le_trans hna (F.roundFin_nonneg hb)
    · have := F.roundFin_mono_pos (show (0 : ℚ) < -b by linarith) (show -b ≤ -a by linarith)
      rw [F.roundFin_neg, F.roundFin_neg] at this
      linarith


/-- Evaluation of the rounding at a value whose binade `e` and nearest multiple `k` of
the spacing are known. -/
theorem Fmt.roundFin_eq (F : Fmt) (q : ℚ) (e k : ℤ) (h1 : (2 : ℚ) ^ e ≤ |q|)
    (h2 : |q| < (2 : ℚ) ^ (e + 1)) (he : F.emin ≤ e)
    (hk : |q / 2 ^ (e - (F.frac : ℤ)) - k| < 1 / 2) :
    F.roundFin q = (k : ℚ) * 2 ^ (e - (F.frac : ℤ)) := by
  have hlog : Int.log 2 |q| = e := log_eq_of_bounds h1 h2
  unfold Fmt.roundFin Fmt.ulpExp
  rw [hlog, max_eq_left he, roundHE_eq_of_abs_lt _ k hk]

/-- Evaluation of the rounding at an exact tie. -/
theorem Fmt.roundFin_tie (F : Fmt) (q : ℚ) (e k : ℤ) (h1 : (2 : ℚ) ^ e ≤ |q|)
    (h2 : |q| < (2 : ℚ) ^ (e + 1)) (he : F.emin ≤ e)
    (hk : q / 2 ^ (e - (F.frac : ℤ)) = k + 1 / 2) :
    F.roundFin q = ((if k % 2 = 0 then k else k + 1 : ℤ) : ℚ) * 2 ^ (e - (F.frac : ℤ)) := by
  have hlog : Int.log 2 |q| = e := log_eq_of_bounds h1 h2
  unfold Fmt.roundFin Fmt.ulpExp
  rw [hlog, max_eq_left he, roundHE_tie _ k hk]

/-- A multiple `k * 2 ^ (e - frac)` of the spacing of binade `e` lying in that binade is
left alone by the rounding. -/
theorem Fmt.roundFin_self (F : Fmt) (q : ℚ) (e k : ℤ) (h1 : (2 : ℚ) ^ e ≤ |q|)
    (h2 : |q| < (2 : ℚ) ^ (e + 1)) (he : F.emin ≤ e)
    (hk : q = (k : ℚ) * 2 ^ (e - (F.frac : ℤ))) : F.roundFin q = q := by
  have hu := two_zpow_pos (e - (F.frac : ℤ))
  have hq : q / 2 ^ (e - (F.frac : ℤ)) = k := by
    rw [hk]; field_simp
  rw [F.roundFin_eq q e k h1 h2 he (by rw [hq]; simp)]
  exact hk.symm

theorem Fmt.roundFin_self_pos (F : Fmt) (q : ℚ) (e k : ℤ) (h1 : (2 : ℚ) ^ e ≤ q)
    (h2 : q < (2 : ℚ) ^ (e + 1)) (he : F.emin ≤ e)
    (hk : q = (k : ℚ) * 2 ^ (e - (F.frac : ℤ))) : F.roundFin q = q := by
  have hq : 0 < q := lt_of_lt_of_le (two_zpow_pos e) h1
  exact F.roundFin_self q e k (by rwa [abs_of_pos hq]) (by rwa [abs_of_pos hq]) he hk

theorem Fmt.round_of_isRep (F : Fmt) {q : ℚ} (h : F.isRep q) : F.round q = FP.fin q := by
  obtain ⟨h1, h2⟩ := h
  rw [abs_le] at h2
  unfold Fmt.round
  rw [h1]
  have a1 : ¬ (F.maxFin < q) := not_lt.mpr h2.2
  have a2 : ¬ (q < -F.maxFin) := not_lt.mpr h2.1
  simp [a1, a2]

theorem Fmt.maxFin_pos (F : Fmt) : 0 < F.maxFin := by
  unfold Fmt.maxFin
  have h1 : (1 : ℚ) < 2 ^ (F.frac + 1) := one_lt_pow₀ (by norm_num) (by omega)
  have h2 := two_zpow_pos (F.emax - (F.frac : ℤ))
  have h3 : (0 : ℚ) < 2 ^ (F.frac + 1) - 1 := by linarith
  positivity

theorem Fmt.isRep_zero (F : Fmt) : F.isRep 0 :=
  ⟨F.roundFin_zero, by rw [abs_zero]; exact F.maxFin_pos.le⟩

/-- Results of `Fmt.round`, case by case. -/
theorem Fmt.round_cases (F : Fmt) (q : ℚ) :
    (F.round q = FP.pinf ∧ F.maxFin < F.roundFin q) ∨
    (F.round q = FP.ninf ∧ F.roundFin q < -F.maxFin) ∨
    (F.round q = FP.fin (F.roundFin q) ∧ -F.maxFin ≤ F.roundFin q ∧ F.roundFin q ≤ F.maxFin) := by
  unfold Fmt.round
  by_cases h1 : F.maxFin < F.roundFin q
  · left; simp [h1]
  · by_cases h2 : F.roundFin q < -F.maxFin
    · right; left; simp [h1, h2]
    · right; right; simp [h1, h2]; exact ⟨not_lt.mp h2, not_lt.mp h1⟩

/-- IEEE rounding is monotone for the order of the extended reals. -/
theorem Fmt.round_mono (F : Fmt) {a b : ℚ} (hab : a ≤ b) :
    FP.leb (F.round a) (F.round b) = true := by
  have hm := F.roundFin_mono hab
  have hp := F.maxFin_pos
  rcases F.round_cases a with ⟨ha, ha'⟩ | ⟨ha, ha'⟩ | ⟨ha, ha', ha''⟩ <;>
    rcases F.round_cases b with ⟨hb, hb'⟩ | ⟨hb, hb'⟩ | ⟨hb, hb', hb''⟩ <;>
    rw [ha, hb] <;> simp [FP.leb] <;> linarith

theorem FP.not_ltb_of_leb {x y : FP} (h : FP.leb x y = true) : FP.ltb y x = false := by
  cases x <;> cases y <;> simp [FP.leb, FP.ltb] at h ⊢
  exact h

theorem FP.leb_false_of_ltb {x y : FP} (h : FP.ltb x y = true) : FP.leb y x = false := by
  cases x <;> cases y <;> simp [FP.leb, FP.ltb] at h ⊢
  exact h


/-! ## Facts about `double` near one -/

theorem binary64_roundFin_half : binary64.roundFin (1 / 2) = 1 / 2 :=
  binary64.roundFin_self_pos (1 / 2) (-1) 4503599627370496 (by norm_num) (by norm_num)
    (by norm_num [binary64]) (by norm_num [binary64])

theorem binary64_roundFin_one : binary64.roundFin 1 = 1 :=
  binary64.roundFin_self_pos 1 0 4503599627370496 (by norm_num) (by norm_num)
    (by norm_num [binary64]) (by norm_num [binary64])

/-- Rounding to `double` in the binade `[1/2, 1)`, where the spacing is `2⁻⁵³`. -/
theorem binary64_roundFin_below_one {x : ℚ} (h1 : 1 / 2 ≤ x) (h2 : x < 1) :
    binary64.roundFin x =
      (roundHE (x * 9007199254740992) : ℚ) / 9007199254740992 := by
  have hx0 : 0 < x := by linarith
  have hlog : Int.log 2 |x| = -1 := by
    apply log_eq_of_bounds <;> rw [abs_of_pos hx0] <;> norm_num <;> linarith
  have hu : (2 : ℚ) ^ (max (-1 : ℤ) binary64.emin - (binary64.frac : ℤ)) =
      1 / 9007199254740992 := by
    norm_num [binary64]
  unfold Fmt.roundFin Fmt.ulpExp
  rw [hlog, hu]
  have hz : x / (1 / 9007199254740992) = x * 9007199254740992 := by field_simp
  rw [hz]
  ring

theorem binary64_one_le_maxFin : (1 : ℚ) ≤ binary64.maxFin := by
  norm_num [Fmt.maxFin, binary64]

theorem binary64_isRep_one : binary64.isRep 1 :=
  ⟨binary64_roundFin_one, by rw [abs_one]; exact binary64_one_le_maxFin⟩

/-- A real below `1 - 2⁻⁵⁴` rounds to a `double` below one. -/
theorem binary64_roundFin_lt_one {x : ℚ} (hx : x < 1 - 1 / 18014398509481984) :
    binary64.roundFin x < 1 := by
  rcases lt_or_le x (1 / 2) with h | h
  · have := binary64.roundFin_mono h.le
    rw [binary64_roundFin_half] at this
    linarith
  · have hx1 : x < 1 := by linarith
    rw [binary64_roundFin_below_one h hx1]
    have hb := (roundHE_sub_le (x * 9007199254740992)).1
    have hlt : (roundHE (x * 9007199254740992) : ℚ) < 9007199254740992 := by linarith
    have hlt' : roundHE (x * 9007199254740992) < 9007199254740992 := by exact_mod_cast hlt
    have hle : (roundHE (x * 9007199254740992) : ℚ) ≤ 9007199254740991 := by
      have : roundHE (x * 9007199254740992) ≤ 9007199254740991 := by omega
      exact_mod_cast this
    rw [div_lt_iff₀ (by norm_num)]
    linarith

/-- A real that is at least one rounds to a `double` that is at least one. -/
theorem binary64_one_le_round {x : ℚ} (hx : 1 ≤ x) :
    FP.leb (FP.fin 1) (binary64.round x) = true := by
  have := binary64.round_mono hx
  rwa [binary64.round_of_isRep binary64_isRep_one] at this


/-- Rounding result once the nearest value is known and in range. -/
theorem Fmt.round_eq_fin (F : Fmt) {q r : ℚ} (hr : F.roundFin q = r) (hmax : |r| ≤ F.maxFin) :
    F.round q = FP.fin r := by
  rw [abs_le] at hmax
  unfold Fmt.round
  rw [hr]
  have a1 : ¬ (F.maxFin < r) := not_lt.mpr hmax.2
  have a2 : ¬ (r < -F.maxFin) := not_lt.mpr hmax.1
  simp [a1, a2]

/-- Every positive integer below `2⁵³` is a `double`. -/
theorem binary64_roundFin_int {n : ℤ} (h1 : 1 ≤ n) (h2 : n < 9007199254740992) :
    binary64.roundFin (n : ℚ) = n := by
  have hq1 : (1 : ℚ) ≤ (n : ℚ) := by exact_mod_cast h1
  have hq0 : (0 : ℚ) < (n : ℚ) := by linarith
  have hlog0 : 0 ≤ Int.log 2 (n : ℚ) := by
    have := Int.log_mono_right (b := 2) (by norm_num : (0 : ℚ) < 1) hq1
    simpa using this
  obtain ⟨e, he⟩ := Int.eq_ofNat_of_zero_le hlog0
  have hlow : (2 : ℚ) ^ (e : ℤ) ≤ n := by rw [← he]; exact log_le_self hq0
  have hup : (n : ℚ) < (2 : ℚ) ^ ((e : ℤ) + 1) := by rw [← he]; exact lt_log_succ _
  have he52 : e ≤ 52 := by
    by_contra hc
    push_neg at hc
    have hpow : (2 : ℚ) ^ (53 : ℕ) ≤ (2 : ℚ) ^ e := pow_le_pow_right₀ (by norm_num) hc
    rw [zpow_natCast] at hlow
    have h2' : (n : ℚ) < 9007199254740992 := by exact_mod_cast h2
    norm_num at hpow
    linarith
  apply binary64.roundFin_self_pos (n : ℚ) (e : ℤ) (n * 2 ^ (52 - e)) hlow hup
    (by simp only [binary64]; omega)
  simp only [binary64]
  push_cast
  rw [mul_assoc, ← zpow_natCast, ← zpow_add₀ (by norm_num : (2 : ℚ) ≠ 0)]
  have : ((52 - e : ℕ) : ℤ) + ((e : ℤ) - 52) = 0 := by omega
  rw [this]
  simp

theorem binary64_maxFin_large : (9007199254740992 : ℚ) ≤ binary64.maxFin := by
  norm_num [Fmt.maxFin, binary64]

/-- Conversion of a positive `int` to `double` is exact. -/
theorem ieee_ofIntD_pos {n : ℤ} (h1 : 1 ≤ n) (h2 : n ≤ 2147483648) :
    ieee.ofIntD n = FP.fin (n : ℚ) := by
  have hq1 : (1 : ℚ) ≤ (n : ℚ) := by exact_mod_cast h1
  have hq2 : (n : ℚ) ≤ 2147483648 := by exact_mod_cast h2
  apply binary64.round_eq_fin (binary64_roundFin_int h1 (by omega))
  rw [abs_of_pos (by linarith)]
  have := binary64_maxFin_large
  linarith

theorem ieee_litD_one : ieee.litD 1.0 = FP.fin 1 := by
  have h : ((1.0 : ℚ)) = 1 := by norm_num
  show binary64.round (1.0 : ℚ) = FP.fin 1
  rw [h]
  exact binary64.round_of_isRep binary64_isRep_one

theorem wrap32_of_range {n : ℤ} (h1 : -2147483648 ≤ n) (h2 : n ≤ 2147483647) : wrap32 n = n := by
  unfold wrap32
  omega

theorem wrap32_range (n : ℤ) : -2147483648 ≤ wrap32 n ∧ wrap32 n ≤ 2147483647 := by
  unfold wrap32
  omega


/-! ## The loop body, field by field -/

section Generic

variable {F D : Type} (A : Arith F D)

theorem processInput_moveBy (k : Keys) (st : State F D) :
    (processInput A k st).moveBy = st.moveBy := by
  rcases k with ⟨e, w, u, a, l, s, dn, d, r⟩
  cases e <;> cases w <;> cases u <;> cases a <;> cases l <;> cases s <;> cases dn <;>
    cases d <;> cases r <;> rfl

theorem processInput_lastTime (k : Keys) (st : State F D) :
    (processInput A k st).lastTime = st.lastTime := by
  rcases k with ⟨e, w, u, a, l, s, dn, d, r⟩
  cases e <;> cases w <;> cases u <;> cases a <;> cases l <;> cases s <;> cases dn <;>
    cases d <;> cases r <;> rfl

theorem processInput_nbFrames (k : Keys) (st : State F D) :
    (processInput A k st).nbFrames = st.nbFrames := by
  rcases k with ⟨e, w, u, a, l, s, dn, d, r⟩
  cases e <;> cases w <;> cases u <;> cases a <;> cases l <;> cases s <;> cases dn <;>
    cases d <;> cases r <;> rfl

theorem processInput_shouldClose (k : Keys) (st : State F D) :
    (processInput A k st).shouldClose = (k.escape || st.shouldClose) := by
  rcases k with ⟨e, w, u, a, l, s, dn, d, r⟩
  cases e <;> cases w <;> cases u <;> cases a <;> cases l <;> cases s <;> cases dn <;>
    cases d <;> cases r <;> rfl

/-- The new `xOffset`, by which of the groups A/Left and D/Right is held. -/
theorem processInput_xOffset_cases (k : Keys) (st : State F D) :
    (processInput A k st).xOffset =
      if k.a || k.left then
        (if k.d || k.right then A.addF (A.subF st.xOffset st.moveBy) st.moveBy
         else A.subF st.xOffset st.moveBy)
      else (if k.d || k.right then A.addF st.xOffset st.moveBy else st.xOffset) := by
  rcases k with ⟨e, w, u, a, l, s, dn, d, r⟩
  cases e <;> cases w <;> cases u <;> cases a <;> cases l <;> cases s <;> cases dn <;>
    cases d <;> cases r <;> rfl

/-- The new `yOffset`, by which of the groups W/Up and S/Down is held. -/
theorem processInput_yOffset_cases (k : Keys) (st : State F D) :
    (processInput A k st).yOffset =
      if k.w || k.up then
        (if k.s || k.down then A.subF (A.addF st.yOffset st.moveBy) st.moveBy
         else A.addF st.yOffset st.moveBy)
      else (if k.s || k.down then A.subF st.yOffset st.moveBy else st.yOffset) := by
  rcases k with ⟨e, w, u, a, l, s, dn, d, r⟩
  cases e <;> cases w <;> cases u <;> cases a <;> cases l <;> cases s <;> cases dn <;>
    cases d <;> cases r <;> rfl

theorem timingStep_moveBy (st : State F D) (c : D) :
    (timingStep A st c).moveBy =
      A.toF (A.divD (A.subD c st.lastTime) (A.ofIntD (wrap32 (st.nbFrames + 1)))) := by
  cases h : A.geD (A.subD c st.lastTime) (A.litD 1.0) <;> simp [timingStep, h]

theorem timingStep_same_window (st : State F D) (c : D)
    (h : A.geD (A.subD c st.lastTime) (A.litD 1.0) = false) :
    (timingStep A st c).nbFrames = wrap32 (st.nbFrames + 1) ∧
    (timingStep A st c).lastTime = st.lastTime := by
  simp [timingStep, h]

theorem timingStep_reset (st : State F D) (c : D)
    (h : A.geD (A.subD c st.lastTime) (A.litD 1.0) = true) :
    (timingStep A st c).nbFrames = 0 ∧
    (timingStep A st c).lastTime = A.addD st.lastTime (A.litD 1.0) := by
  simp [timingStep, h]

theorem timingStep_offsets (st : State F D) (c : D) :
    (timingStep A st c).xOffset = st.xOffset ∧ (timingStep A st c).yOffset = st.yOffset ∧
    (timingStep A st c).shouldClose = st.shouldClose := by
  cases h : A.geD (A.subD c st.lastTime) (A.litD 1.0) <;> simp [timingStep, h]

theorem loopBody_moveBy (st : State F D) (f : Frame D) :
    (loopBody A st f).moveBy =
      A.toF (A.divD (A.subD f.currentTime st.lastTime) (A.ofIntD (wrap32 (st.nbFrames + 1)))) := by
  simp [loopBody, timingStep_moveBy, processInput_lastTime, processInput_nbFrames]

theorem loopBody_same_window (st : State F D) (f : Frame D)
    (h : A.geD (A.subD f.currentTime st.lastTime) (A.litD 1.0) = false) :
    (loopBody A st f).nbFrames = wrap32 (st.nbFrames + 1) ∧
    (loopBody A st f).lastTime = st.lastTime := by
  have h' : A.geD (A.subD f.currentTime (processInput A f.keys st).lastTime) (A.litD 1.0) =
      false := by
    rw [processInput_lastTime]; exact h
  have := timingStep_same_window A (processInput A f.keys st) f.currentTime h'
  simpa [loopBody, processInput_lastTime, processInput_nbFrames] using this

theorem loopBody_reset (st : State F D) (f : Frame D)
    (h : A.geD (A.subD f.currentTime st.lastTime) (A.litD 1.0) = true) :
    (loopBody A st f).nbFrames = 0 ∧
    (loopBody A st f).lastTime = A.addD st.lastTime (A.litD 1.0) := by
  have h' : A.geD (A.subD f.currentTime (processInput A f.keys st).lastTime) (A.litD 1.0) =
      true := by
    rw [processInput_lastTime]; exact h
  have := timingStep_reset A (processInput A f.keys st) f.currentTime h'
  simpa [loopBody, processInput_lastTime, processInput_nbFrames] using this

theorem loopBody_xOffset (st : State F D) (f : Frame D) :
    (loopBody A st f).xOffset = (processInput A f.keys st).xOffset := by
  simp [loopBody, (timingStep_offsets A _ _).1]

theorem loopBody_yOffset (st : State F D) (f : Frame D) :
    (loopBody A st f).yOffset = (processInput A f.keys st).yOffset := by
  simp [loopBody, (timingStep_offsets A _ _).2.1]

theorem loopBody_shouldClose (st : State F D) (f : Frame D) :
    (loopBody A st f).shouldClose = (f.keys.escape || st.shouldClose || f.closeEvent) := by
  simp [loopBody, (timingStep_offsets A _ _).2.2, processInput_shouldClose]

theorem renderLoop_closed (st : State F D) (frames : List (Frame D))
    (h : st.shouldClose = true) : renderLoop A st frames = (0, st) := by
  cases frames with
  | nil => rfl
  | cons f rest => simp [renderLoop, h]

theorem renderLoop_running (st : State F D) (f : Frame D) (rest : List (Frame D))
    (h : st.shouldClose = false) :
    renderLoop A st (f :: rest) =
      ((renderLoop A (loopBody A st f) rest).1 + 1, (renderLoop A (loopBody A st f) rest).2) := by
  simp [renderLoop, h]

/-- The state in which the loop stops is the state reached by running the loop body
on the frames of the iterations that were executed. -/
theorem renderLoop_eq_foldl (frames : List (Frame D)) (st : State F D) :
    (renderLoop A st frames).2 =
      (frames.take (renderLoop A st frames).1).foldl (loopBody A) st ∧
    (renderLoop A st frames).1 ≤ frames.length := by
  induction frames generalizing st with
  | nil => simp [renderLoop]
  | cons f rest ih =>
    cases h : st.shouldClose with
    | true => simp [renderLoop_closed A st (f :: rest) h]
    | false =>
      rw [renderLoop_running A st f rest h]
      obtain ⟨h1, h2⟩ := ih (loopBody A st f)
      constructor
      · simpa using h1
      · simpa using h2

theorem renderLoop_escape (pre : List (Frame D)) (f : Frame D) (rest : List (Frame D))
    (st : State F D) (hesc : f.keys.escape = true) :
    (renderLoop A st (pre ++ f :: rest)).1 ≤ pre.length + 1 ∧
    (renderLoop A st (pre ++ f :: rest)).2.shouldClose = true := by
  induction pre generalizing st with
  | nil =>
    cases h : st.shouldClose with
    | true => simp [renderLoop_closed A st _ h, h]
    | false =>
      have hc : (loopBody A st f).shouldClose = true := by simp [loopBody_shouldClose, hesc]
      simp [renderLoop_running A st f rest h, renderLoop_closed A _ rest hc, hc]
  | cons g pre ih =>
    cases h : st.shouldClose with
    | true => simp [renderLoop_closed A st _ h, h]
    | false =>
      obtain ⟨h1, h2⟩ := ih (loopBody A st g)
      rw [List.cons_append, renderLoop_running A st g _ h]
      exact ⟨by simpa using h1, h2⟩

end Generic

theorem processInput_xOffset (k : Keys) (st : State ℚ ℚ) :
    (processInput exact k st).xOffset =
      st.xOffset + st.moveBy * (held (k.d || k.right) - held (k.a || k.left)) := by
  rcases k with ⟨e, w, u, a, l, s, dn, d, r⟩
  cases e <;> cases w <;> cases u <;> cases a <;> cases l <;> cases s <;> cases dn <;>
    cases d <;> cases r <;> simp [processInput, held, exact] <;> ring

theorem processInput_yOffset (k : Keys) (st : State ℚ ℚ) :
    (processInput exact k st).yOffset =
      st.yOffset + st.moveBy * (held (k.w || k.up) - held (k.s || k.down)) := by
  rcases k with ⟨e, w, u, a, l, s, dn, d, r⟩
  cases e <;> cases w <;> cases u <;> cases a <;> cases l <;> cases s <;> cases dn <;>
    cases d <;> cases r <;> simp [processInput, held, exact] <;> ring


/-! ## Machine arithmetic at particular values -/

/-- A positive multiple `k * 2 ^ (e - frac)` of the spacing of its binade `e`, in range,
is a value of the format. -/
theorem Fmt.isRep_dyadic (F : Fmt) (q : ℚ) (e k : ℤ) (h1 : (2 : ℚ) ^ e ≤ q)
    (h2 : q < (2 : ℚ) ^ (e + 1)) (he : F.emin ≤ e)
    (hk : q = (k : ℚ) * 2 ^ (e - (F.frac : ℤ))) (hmax : q ≤ F.maxFin) : F.isRep q := by
  have hq : 0 < q := lt_of_lt_of_le (two_zpow_pos e) h1
  exact ⟨F.roundFin_self_pos q e k h1 h2 he hk, by rwa [abs_of_pos hq]⟩

theorem Fmt.isRep_neg (F : Fmt) {q : ℚ} (h : F.isRep q) : F.isRep (-q) :=
  ⟨by rw [F.roundFin_neg, h.1], by rw [abs_neg]; exact h.2⟩

theorem Fmt.roundFin_eq_pos (F : Fmt) (q : ℚ) (e k : ℤ) (h1 : (2 : ℚ) ^ e ≤ q)
    (h2 : q < (2 : ℚ) ^ (e + 1)) (he : F.emin ≤ e)
    (hk1 : (k : ℚ) - 1 / 2 < q / 2 ^ (e - (F.frac : ℤ)))
    (hk2 : q / 2 ^ (e - (F.frac : ℤ)) < (k : ℚ) + 1 / 2) :
    F.roundFin q = (k : ℚ) * 2 ^ (e - (F.frac : ℤ)) := by
  have hq : 0 < q := lt_of_lt_of_le (two_zpow_pos e) h1
  apply F.roundFin_eq q e k (by rwa [abs_of_pos hq]) (by rwa [abs_of_pos hq]) he
  rw [abs_lt]
  constructor <;> linarith

theorem Fmt.roundFin_tie_pos (F : Fmt) (q : ℚ) (e k : ℤ) (h1 : (2 : ℚ) ^ e ≤ q)
    (h2 : q < (2 : ℚ) ^ (e + 1)) (he : F.emin ≤ e)
    (hk : q / 2 ^ (e - (F.frac : ℤ)) = k + 1 / 2) :
    F.roundFin q = ((if k % 2 = 0 then k else k + 1 : ℤ) : ℚ) * 2 ^ (e - (F.frac : ℤ)) := by
  have hq : 0 < q := lt_of_lt_of_le (two_zpow_pos e) h1
  exact F.roundFin_tie q e k (by rwa [abs_of_pos hq]) (by rwa [abs_of_pos hq]) he hk

theorem binary32_maxFin_large : (4294967296 : ℚ) ≤ binary32.maxFin := by
  norm_num [Fmt.maxFin, binary32]

theorem binary64_isRep_half : binary64.isRep (1 / 2) :=
  binary64.isRep_dyadic (1 / 2) (-1) 4503599627370496 (by norm_num) (by norm_num)
    (by norm_num [binary64]) (by norm_num [binary64])
    (by have := binary64_maxFin_large; linarith)

theorem binary32_isRep_half : binary32.isRep (1 / 2) :=
  binary32.isRep_dyadic (1 / 2) (-1) 8388608 (by norm_num) (by norm_num)
    (by norm_num [binary32]) (by norm_num [binary32])
    (by have := binary32_maxFin_large; linarith)

theorem binary32_isRep_quarter : binary32.isRep (1 / 4) :=
  binary32.isRep_dyadic (1 / 4) (-2) 8388608 (by norm_num) (by norm_num)
    (by norm_num [binary32]) (by norm_num [binary32])
    (by have := binary32_maxFin_large; linarith)

theorem binary32_isRep_one : binary32.isRep 1 :=
  binary32.isRep_dyadic 1 0 8388608 (by norm_num) (by norm_num)
    (by norm_num [binary32]) (by norm_num [binary32])
    (by have := binary32_maxFin_large; linarith)

theorem ieee_litF_quarter : ieee.litF 0.25 = FP.fin (1 / 4) := by
  show binary32.round (0.25 : ℚ) = FP.fin (1 / 4)
  rw [show (0.25 : ℚ) = 1 / 4 by norm_num]
  exact binary32.round_of_isRep binary32_isRep_quarter

theorem ieee_litF_zero : ieee.litF 0.0 = FP.fin 0 := by
  show binary32.round (0.0 : ℚ) = FP.fin 0
  rw [show (0.0 : ℚ) = 0 by norm_num]
  exact binary32.round_of_isRep binary32.isRep_zero

theorem ieee_litF_negOne : ieee.litF (-1.0) = FP.fin (-1) := by
  show binary32.round (-1.0 : ℚ) = FP.fin (-1)
  rw [show (-1.0 : ℚ) = -1 by norm_num]
  exact binary32.round_of_isRep (binary32.isRep_neg binary32_isRep_one)

theorem ieee_geD_litD (x : FP) : ieee.geD x (ieee.litD 1.0) = FP.leb (FP.fin 1) x := by
  rw [ieee_litD_one]
  rfl

theorem ieee_addD_litD (x : FP) : ieee.addD x (ieee.litD 1.0) = FP.add binary64 x (FP.fin 1) := by
  rw [ieee_litD_one]
  rfl

/-- A real below `1 - 2⁻⁵⁴` has a rounded `double` value for which `>= 1.0` is false. -/
theorem binary64_round_lt_one {x : ℚ} (hx : x < 1 - 1 / 18014398509481984) :
    FP.leb (FP.fin 1) (binary64.round x) = false := by
  have h1 := binary64_roundFin_lt_one hx
  rcases binary64.round_cases x with ⟨_, h2⟩ | ⟨h2, _⟩ | ⟨h2, _, _⟩
  · have := binary64_one_le_maxFin; linarith
  · rw [h2]; rfl
  · rw [h2]; simpa [FP.leb] using h1

theorem FP.round_ne_nan (F : Fmt) (q : ℚ) :
    F.round q = FP.pinf ∨ F.round q = FP.ninf ∨ ∃ r, F.round q = FP.fin r := by
  rcases F.round_cases q with ⟨h, _⟩ | ⟨h, _⟩ | ⟨h, _, _⟩
  · exact Or.inl h
  · exact Or.inr (Or.inl h)
  · exact Or.inr (Or.inr ⟨_, h⟩)

/-- Conversion to another format is monotone. -/
theorem FP.cast_mono (F : Fmt) {x y : FP} (h : FP.leb x y = true) :
    FP.leb (FP.cast F x) (FP.cast F y) = true := by
  cases x with
  | nan => simp [FP.leb] at h
  | ninf =>
    cases y with
    | nan => simp [FP.leb] at h
    | ninf => rfl
    | pinf => rfl
    | fin b =>
      rcases FP.round_ne_nan F b with hb | hb | ⟨r, hb⟩ <;> simp [FP.cast, hb, FP.leb]
  | pinf =>
    cases y with
    | nan => simp [FP.leb] at h
    | ninf => simp [FP.leb] at h
    | pinf => rfl
    | fin b => simp [FP.leb] at h
  | fin a =>
    cases y with
    | nan => simp [FP.leb] at h
    | ninf => simp [FP.leb] at h
    | pinf =>
      rcases FP.round_ne_nan F a with ha | ha | ⟨r, ha⟩ <;> simp [FP.cast, ha, FP.leb]
    | fin b =>
      have hab : a ≤ b := by simpa [FP.leb] using h
      exact F.round_mono hab

theorem FP.cast_nonneg (F : Fmt) {x : FP} (h : FP.leb (FP.fin 0) x = true) :
    FP.leb (FP.fin 0) (FP.cast F x) = true := by
  have := FP.cast_mono F h
  rwa [show FP.cast F (FP.fin 0) = F.round 0 from rfl, F.round_of_isRep F.isRep_zero] at this

theorem FP.div_fin_fin (F : Fmt) (a b : ℚ) (hb : b ≠ 0) :
    FP.div F (FP.fin a) (FP.fin b) = F.round (a / b) := by
  simp [FP.div, hb]


/-! ## Geometry table -/

/-- C1: every entry of the fill index list `indices` and of the outline index list
`lineIndices` is strictly below the number of vertices, which is the number of floats in
`vertices` divided by two; hence every index fetched by either draw call names an
existing vertex. -/
theorem indices_lt_vertexCount :
    (∀ i ∈ indices, i < vertices.length / 2) ∧
    (∀ i ∈ lineIndices, i < vertices.length / 2) ∧
    vertexCount = vertices.length / 2 ∧
    (∀ c ∈ drawCalls, ∀ i ∈ c.fetched, i < vertexCount) := by
  decide

theorem indices_lt_vertexCount_witness :
    (15 ∈ indices ∧ 15 < vertices.length / 2) ∧
    (15 ∈ lineIndices ∧ 15 < vertices.length / 2) ∧
    (13 ∈ (DrawCall.mk 1 Primitive.lines 40).fetched ∧ 13 < vertexCount) :=
  ⟨⟨by decide, indices_lt_vertexCount.1 15 (by decide)⟩,
   ⟨by decide, indices_lt_vertexCount.2.1 15 (by decide)⟩,
   ⟨by decide, indices_lt_vertexCount.2.2.2 (DrawCall.mk 1 Primitive.lines 40) (by decide) 13
      (by decide)⟩⟩

/-- C2 (as stated, refuted): the vertex table does not hold 9 vertices; the fill list
even refers to vertex 15. -/
theorem vertexCount_ne_nine : vertexCount ≠ 9 ∧ vertices.length ≠ 9 * 2 ∧ 15 ∈ indices := by
  decide

/-- C2 (amended): the vertex table holds 16 two-float positions, 32 floats in all. -/
theorem vertexCount_eq_sixteen : vertexCount = 16 ∧ vertices.length = 16 * 2 := by
  decide

/-- C3: `indices` has 27 entries (9 triangles of 3), `lineIndices` has 40 entries
(20 segments of 2), and the two draw calls are issued with exactly these element counts:
27 for the triangle draw on the fill list, 40 for the line draw on the outline list. -/
theorem index_counts_match_draw_calls :
    indices.length = 27 ∧ indices.length = 9 * 3 ∧
    lineIndices.length = 40 ∧ lineIndices.length = 20 * 2 ∧
    drawCalls.map (fun c => (c.mode, c.count, elementBuffer c.vao)) =
      [(Primitive.triangles, indices.length, indices),
       (Primitive.lines, lineIndices.length, lineIndices)] := by
  decide

/-! ## Input handling -/

/-- C4: for every key state and every starting state, one call of `processInput` yields,
in exact arithmetic, `xOffset + moveBy * ([D or Right] - [A or Left])` and
`yOffset + moveBy * ([W or Up] - [S or Down])`; with W and D held together both offsets
grow by `moveBy` in that one call. -/
theorem processInput_offsets (k : Keys) (st : State ℚ ℚ) :
    (processInput exact k st).xOffset =
        st.xOffset + st.moveBy * (held (k.d || k.right) - held (k.a || k.left)) ∧
    (processInput exact k st).yOffset =
        st.yOffset + st.moveBy * (held (k.w || k.up) - held (k.s || k.down)) ∧
    (processInput exact keysWD st).xOffset = st.xOffset + st.moveBy ∧
    (processInput exact keysWD st).yOffset = st.yOffset + st.moveBy := by
  refine ⟨processInput_xOffset k st, processInput_yOffset k st, ?_, ?_⟩
  · simp [processInput, keysWD, noKeys, exact]
  · simp [processInput, keysWD, noKeys, exact]

/-- C5: in exact arithmetic, holding only D for `n` calls of `processInput` with step `m`
each time moves `xOffset` from `x0` to `x0 + n * m` and leaves `yOffset` at `y0`; from the
initial offsets `0.25`, `-1.0`, three calls with step `0.01` end at `xOffset = 0.28`. -/
theorem holdFrames_onlyD (n : Nat) (m : ℚ) (st : State ℚ ℚ) (t0 : ℚ) :
    (holdFrames exact onlyD m n st).xOffset = st.xOffset + n * m ∧
    (holdFrames exact onlyD m n st).yOffset = st.yOffset ∧
    (initState exact t0).xOffset = 0.25 ∧ (initState exact t0).yOffset = -1.0 ∧
    (holdFrames exact onlyD 0.01 3 (initState exact t0)).xOffset = 0.28 := by
  have key : ∀ (n : Nat) (st : State ℚ ℚ),
      (holdFrames exact onlyD m n st).xOffset = st.xOffset + n * m ∧
      (holdFrames exact onlyD m n st).yOffset = st.yOffset := by
    intro n
    induction n with
    | zero => intro st; simp [holdFrames]
    | succ n ih =>
      intro st
      obtain ⟨hx, hy⟩ := ih (processInput exact onlyD { st with moveBy := m })
      simp only [holdFrames, hx, hy, processInput_xOffset, processInput_yOffset]
      constructor
      · simp [onlyD, noKeys, held]; ring
      · simp [onlyD, noKeys, held]
  refine ⟨(key n st).1, (key n st).2, rfl, rfl, ?_⟩
  simp [holdFrames, processInput, onlyD, noKeys, initState, exact]
  norm_num

/-! ## Leaving the loop -/

/-- C7: if Escape is reported pressed in a loop iteration, `processInput` raises the
should-close flag, the flag is still raised when the iteration ends, the loop runs no
further iteration from there, and `main` (window and loader having succeeded) returns
exit code 0 however many frames precede or follow the Escape frame.  This holds for
every interpretation of the arithmetic, the machine one included. -/
theorem escape_terminates {F D : Type} (A : Arith F D) (st : State F D) (t0 : D)
    (pre : List (Frame D)) (f : Frame D) (rest : List (Frame D))
    (hesc : f.keys.escape = true) :
    (processInput A f.keys st).shouldClose = true ∧
    (loopBody A st f).shouldClose = true ∧
    renderLoop A (loopBody A st f) rest = (0, loopBody A st f) ∧
    (st.shouldClose = false → renderLoop A st (f :: rest) = (1, loopBody A st f)) ∧
    (renderLoop A (initState A t0) (pre ++ f :: rest)).1 ≤ pre.length + 1 ∧
    main A true true t0 (pre ++ f :: rest) = some 0 := by
  have hc : (loopBody A st f).shouldClose = true := by simp [loopBody_shouldClose, hesc]
  obtain ⟨h1, h2⟩ := renderLoop_escape A pre f rest (initState A t0) hesc
  refine ⟨by simp [processInput_shouldClose, hesc], hc, renderLoop_closed A _ rest hc, ?_, h1, ?_⟩
  · intro hs
    simp [renderLoop_running A st f rest hs, renderLoop_closed A _ rest hc]
  · simp [main, h2]

theorem escape_terminates_witness :
    (frameEscape (FP.fin 1)).keys.escape = true ∧
    renderLoop ieee (initState ieee (FP.fin 0)) (frameEscape (FP.fin 1) :: [frameD (FP.fin 2)]) =
      (1, loopBody ieee (initState ieee (FP.fin 0)) (frameEscape (FP.fin 1))) ∧
    main ieee true true (FP.fin 0)
      ([frameD (FP.fin (1 / 2))] ++ frameEscape (FP.fin 1) :: [frameD (FP.fin 2)]) = some 0 :=
  ⟨rfl,
   (escape_terminates ieee (initState ieee (FP.fin 0)) (FP.fin 0) [frameD (FP.fin (1 / 2))]
      (frameEscape (FP.fin 1)) [frameD (FP.fin 2)] rfl).2.2.2.1 rfl,
   (escape_terminates ieee (initState ieee (FP.fin 0)) (FP.fin 0) [frameD (FP.fin (1 / 2))]
      (frameEscape (FP.fin 1)) [frameD (FP.fin 2)] rfl).2.2.2.2.2⟩


/-! ## Frame timing -/

theorem dbl0059_isRep : binary64.isRep dbl0059 :=
  binary64.isRep_dyadic dbl0059 (-5) 8502796096475496 (by norm_num [dbl0059])
    (by norm_num [dbl0059]) (by norm_num [binary64]) (by norm_num [binary64, dbl0059])
    (by have := binary64_maxFin_large; norm_num [dbl0059] at this ⊢; linarith)

theorem dbl1059_isRep : binary64.isRep dbl1059 :=
  binary64.isRep_dyadic dbl1059 0 4769312005385355 (by norm_num [dbl1059])
    (by norm_num [dbl1059]) (by norm_num [binary64]) (by norm_num [binary64, dbl1059])
    (by have := binary64_maxFin_large; norm_num [dbl1059] at this ⊢; linarith)

/-- The decimal literal `0.059` denotes the `double` `dbl0059`. -/
theorem dbl0059_nearest : binary64.round 0.059 = FP.fin dbl0059 := by
  apply binary64.round_eq_fin _ dbl0059_isRep.2
  rw [binary64.roundFin_eq_pos 0.059 (-5) 8502796096475496
    (by norm_num) (by norm_num) (by norm_num [binary64])
    (by norm_num [binary64]) (by norm_num [binary64])]
  norm_num [binary64, dbl0059]

/-- The decimal literal `1.059` denotes the `double` `dbl1059`. -/
theorem dbl1059_nearest : binary64.round 1.059 = FP.fin dbl1059 := by
  apply binary64.round_eq_fin _ dbl1059_isRep.2
  rw [binary64.roundFin_eq_pos 1.059 0 4769312005385355
    (by norm_num) (by norm_num) (by norm_num [binary64])
    (by norm_num [binary64]) (by norm_num [binary64])]
  norm_num [binary64, dbl1059]

/-- The `double` subtraction `1.059 - 0.059` is an exact tie and rounds up to `1.0`. -/
theorem dbl1059_sub_dbl0059 : FP.sub binary64 (FP.fin dbl1059) (FP.fin dbl0059) = FP.fin 1 := by
  show binary64.round (dbl1059 - dbl0059) = FP.fin 1
  apply binary64.round_eq_fin _ (by rw [abs_one]; exact binary64_one_le_maxFin)
  rw [binary64.roundFin_tie_pos (dbl1059 - dbl0059) (-1) 9007199254740991
    (by norm_num [dbl1059, dbl0059]) (by norm_num [dbl1059, dbl0059]) (by norm_num [binary64])
    (by norm_num [binary64, dbl1059, dbl0059])]
  norm_num [binary64]

/-- The `double` addition `0.059 + 1.0` rounds to the `double` `1.059`. -/
theorem dbl0059_add_one : FP.add binary64 (FP.fin dbl0059) (FP.fin 1) = FP.fin dbl1059 := by
  show binary64.round (dbl0059 + 1) = FP.fin dbl1059
  apply binary64.round_eq_fin _ dbl1059_isRep.2
  rw [binary64.roundFin_eq_pos (dbl0059 + 1) 0 4769312005385355
    (by norm_num [dbl0059]) (by norm_num [dbl0059]) (by norm_num [binary64])
    (by norm_num [binary64, dbl0059]) (by norm_num [binary64, dbl0059])]
  norm_num [binary64, dbl1059]

/-- C6 (as stated, refuted): with `lastTime` the double `0.059`, the clock at the double
`1.059` and `nbFrames = 5`, the exact difference is below one and yet the step resets:
`nbFrames` becomes `0`, not `6`, and `lastTime` changes, to `1.059`, which is not
`lastTime + 1` exactly.  And with `nbFrames = 2147483647` and no time elapsed the counter
becomes `-2147483648`, not `nbFrames + 1`. -/
theorem timingStep_rounding_counterexample :
    binary64.round 0.059 = FP.fin dbl0059 ∧ binary64.round 1.059 = FP.fin dbl1059 ∧
    binary64.isRep dbl0059 ∧ binary64.isRep dbl1059 ∧ dbl1059 - dbl0059 < 1 ∧
    (timingStep ieee (stateAt (FP.fin dbl0059) 5) (FP.fin dbl1059)).nbFrames = 0 ∧
    (timingStep ieee (stateAt (FP.fin dbl0059) 5) (FP.fin dbl1059)).nbFrames ≠
      (stateAt (FP.fin dbl0059) 5).nbFrames + 1 ∧
    (timingStep ieee (stateAt (FP.fin dbl0059) 5) (FP.fin dbl1059)).lastTime = FP.fin dbl1059 ∧
    (timingStep ieee (stateAt (FP.fin dbl0059) 5) (FP.fin dbl1059)).lastTime ≠
      (stateAt (FP.fin dbl0059) 5).lastTime ∧
    dbl1059 ≠ dbl0059 + 1 ∧
    (timingStep ieee (stateAt (FP.fin 0) 2147483647) (FP.fin 0)).nbFrames = -2147483648 ∧
    (timingStep ieee (stateAt (FP.fin 0) 2147483647) (FP.fin 0)).nbFrames ≠
      (stateAt (FP.fin 0) 2147483647).nbFrames + 1 := by
  have hge : ieee.geD (ieee.subD (FP.fin dbl1059) (stateAt (FP.fin dbl0059) 5).lastTime)
      (ieee.litD 1.0) = true := by
    rw [ieee_geD_litD]
    show FP.leb (FP.fin 1) (FP.sub binary64 (FP.fin dbl1059) (FP.fin dbl0059)) = true
    rw [dbl1059_sub_dbl0059]
    simp [FP.leb]
  obtain ⟨hn, hl⟩ := timingStep_reset ieee (stateAt (FP.fin dbl0059) 5) (FP.fin dbl1059) hge
  have hl' : (timingStep ieee (stateAt (FP.fin dbl0059) 5) (FP.fin dbl1059)).lastTime =
      FP.fin dbl1059 := by
    rw [hl, ieee_addD_litD]
    exact dbl0059_add_one
  have hz : ieee.geD (ieee.subD (FP.fin 0) (stateAt (FP.fin 0) 2147483647).lastTime)
      (ieee.litD 1.0) = false := by
    rw [ieee_geD_litD]
    show FP.leb (FP.fin 1) (binary64.round (0 - 0)) = false
    rw [sub_zero, binary64.round_of_isRep binary64.isRep_zero]
    simp [FP.leb]
  obtain ⟨hn2, _⟩ := timingStep_same_window ieee (stateAt (FP.fin 0) 2147483647) (FP.fin 0) hz
  have hw : wrap32 ((stateAt (FP.fin 0) 2147483647).nbFrames + 1) = -2147483648 := by
    simp [stateAt, wrap32]
  refine ⟨dbl0059_nearest, dbl1059_nearest, dbl0059_isRep, dbl1059_isRep,
    by norm_num [dbl1059, dbl0059], hn, ?_, hl', ?_,
    by norm_num [dbl1059, dbl0059], by rw [hn2, hw], ?_⟩
  · rw [hn]; simp [stateAt]
  · rw [hl']
    simp [stateAt, initState, dbl1059, dbl0059]
    norm_num
  · rw [hn2, hw]; simp [stateAt]

/-- C6 (amended): in the frame-timing step the branch is taken on the `double` value `d`
of `currentTime - lastTime`.  If `d >= 1.0` is false (in particular if `d < 1.0`) and
`nbFrames` is an `int` below `INT_MAX`, then `nbFrames` becomes `nbFrames + 1`, so it
strictly increases, and `lastTime` is unchanged.  If `d >= 1.0` then `nbFrames` becomes
`0` and `lastTime` becomes the `double` sum `lastTime + 1.0`, which is `lastTime + 1`
exactly whenever that number is a `double`.  For finite values, `d >= 1.0` holds whenever
the exact difference is at least `1` and fails whenever it is below `1 - 2⁻⁵⁴`.  The same
holds for a whole loop iteration. -/
theorem timingStep_frame_count (st : State FP FP) (currentTime : FP) (f : Frame FP) (a b : ℚ) :
    (FP.leb (FP.fin 1) (elapsed st currentTime) = false →
        -2147483648 ≤ st.nbFrames → st.nbFrames < 2147483647 →
      (timingStep ieee st currentTime).nbFrames = st.nbFrames + 1 ∧
      (timingStep ieee st currentTime).lastTime = st.lastTime ∧
      st.nbFrames < (timingStep ieee st currentTime).nbFrames) ∧
    (FP.leb (FP.fin 1) (elapsed st currentTime) = true →
      (timingStep ieee st currentTime).nbFrames = 0 ∧
      (timingStep ieee st currentTime).lastTime = FP.add binary64 st.lastTime (FP.fin 1)) ∧
    (FP.leb (FP.fin 1) (elapsed st f.currentTime) = false →
        -2147483648 ≤ st.nbFrames → st.nbFrames < 2147483647 →
      (loopBody ieee st f).nbFrames = st.nbFrames + 1 ∧
      (loopBody ieee st f).lastTime = st.lastTime ∧
      st.nbFrames < (loopBody ieee st f).nbFrames) ∧
    (FP.leb (FP.fin 1) (elapsed st f.currentTime) = true →
      (loopBody ieee st f).nbFrames = 0 ∧
      (loopBody ieee st f).lastTime = FP.add binary64 st.lastTime (FP.fin 1)) ∧
    (FP.ltb (elapsed st currentTime) (FP.fin 1) = true →
      FP.leb (FP.fin 1) (elapsed st currentTime) = false) ∧
    (currentTime = FP.fin a → st.lastTime = FP.fin b → 1 ≤ a - b →
      FP.leb (FP.fin 1) (elapsed st currentTime) = true) ∧
    (currentTime = FP.fin a → st.lastTime = FP.fin b → a - b < 1 - 1 / 18014398509481984 →
      FP.leb (FP.fin 1) (elapsed st currentTime) = false) ∧
    (st.lastTime = FP.fin b → binary64.isRep (b + 1) →
      FP.add binary64 st.lastTime (FP.fin 1) = FP.fin (b + 1)) := by
  refine ⟨?_, ?_, ?_, ?_, FP.leb_false_of_ltb, ?_, ?_, ?_⟩
  · intro h hlo hhi
    have h' : ieee.geD (ieee.subD currentTime st.lastTime) (ieee.litD 1.0) = false := by
      rw [ieee_geD_litD]; exact h
    obtain ⟨h1, h2⟩ := timingStep_same_window ieee st currentTime h'
    rw [wrap32_of_range (by omega) (by omega)] at h1
    exact ⟨h1, h2, by rw [h1]; omega⟩
  · intro h
    have h' : ieee.geD (ieee.subD currentTime st.lastTime) (ieee.litD 1.0) = true := by
      rw [ieee_geD_litD]; exact h
    obtain ⟨h1, h2⟩ := timingStep_reset ieee st currentTime h'
    exact ⟨h1, by rw [h2, ieee_addD_litD]⟩
  · intro h hlo hhi
    have h' : ieee.geD (ieee.subD f.currentTime st.lastTime) (ieee.litD 1.0) = false := by
      rw [ieee_geD_litD]; exact h
    obtain ⟨h1, h2⟩ := loopBody_same_window ieee st f h'
    rw [wrap32_of_range (by omega) (by omega)] at h1
    exact ⟨h1, h2, by rw [h1]; omega⟩
  · intro h
    have h' : ieee.geD (ieee.subD f.currentTime st.lastTime) (ieee.litD 1.0) = true := by
      rw [ieee_geD_litD]; exact h
    obtain ⟨h1, h2⟩ := loopBody_reset ieee st f h'
    exact ⟨h1, by rw [h2, ieee_addD_litD]⟩
  · intro hc hl hab
    show FP.leb (FP.fin 1) (FP.sub binary64 currentTime st.lastTime) = true
    rw [hc, hl]
    exact binary64_one_le_round hab
  · intro hc hl hab
    show FP.leb (FP.fin 1) (FP.sub binary64 currentTime st.lastTime) = false
    rw [hc, hl]
    exact binary64_round_lt_one hab
  · intro hl hrep
    rw [hl]
    exact binary64.round_of_isRep hrep


theorem timingStep_frame_count_witness :
    ((timingStep ieee (stateAt (FP.fin 0) 5) (FP.fin (1 / 2))).nbFrames =
        (stateAt (FP.fin 0) 5).nbFrames + 1 ∧
      (timingStep ieee (stateAt (FP.fin 0) 5) (FP.fin (1 / 2))).lastTime =
        (stateAt (FP.fin 0) 5).lastTime ∧
      (stateAt (FP.fin 0) 5).nbFrames <
        (timingStep ieee (stateAt (FP.fin 0) 5) (FP.fin (1 / 2))).nbFrames) ∧
    ((timingStep ieee (stateAt (FP.fin 0) 5) (FP.fin (3 / 2))).nbFrames = 0 ∧
      (timingStep ieee (stateAt (FP.fin 0) 5) (FP.fin (3 / 2))).lastTime =
        FP.add binary64 (stateAt (FP.fin 0) 5).lastTime (FP.fin 1)) ∧
    ((loopBody ieee (stateAt (FP.fin 0) 5) (frameD (FP.fin (1 / 2)))).nbFrames =
        (stateAt (FP.fin 0) 5).nbFrames + 1 ∧
      (loopBody ieee (stateAt (FP.fin 0) 5) (frameD (FP.fin (1 / 2)))).lastTime =
        (stateAt (FP.fin 0) 5).lastTime ∧
      (stateAt (FP.fin 0) 5).nbFrames <
        (loopBody ieee (stateAt (FP.fin 0) 5) (frameD (FP.fin (1 / 2)))).nbFrames) ∧
    ((loopBody ieee (stateAt (FP.fin 0) 5) (frameD (FP.fin (3 / 2)))).nbFrames = 0 ∧
      (loopBody ieee (stateAt (FP.fin 0) 5) (frameD (FP.fin (3 / 2)))).lastTime =
        FP.add binary64 (stateAt (FP.fin 0) 5).lastTime (FP.fin 1)) ∧
    FP.leb (FP.fin 1) (elapsed (stateAt (FP.fin 0) 5) (FP.fin (1 / 2))) = false ∧
    FP.leb (FP.fin 1) (elapsed (stateAt (FP.fin 0) 5) (FP.fin (3 / 2))) = true ∧
    FP.add binary64 (stateAt (FP.fin 0) 5).lastTime (FP.fin 1) = FP.fin (0 + 1) ∧
    (FP.ltb (elapsed (stateAt (FP.fin 0) 5) (FP.fin (1 / 2))) (FP.fin 1) = true ∧
      FP.leb (FP.fin 1) (elapsed (stateAt (FP.fin 0) 5) (FP.fin (1 / 2))) = false) :=
  have hlt : FP.leb (FP.fin 1) (elapsed (stateAt (FP.fin 0) 5) (FP.fin (1 / 2))) = false :=
    (timingStep_frame_count (stateAt (FP.fin 0) 5) (FP.fin (1 / 2)) (frameD (FP.fin (1 / 2)))
      (1 / 2) 0).2.2.2.2.2.2.1 rfl rfl (by norm_num)
  have hge : FP.leb (FP.fin 1) (elapsed (stateAt (FP.fin 0) 5) (FP.fin (3 / 2))) = true :=
    (timingStep_frame_count (stateAt (FP.fin 0) 5) (FP.fin (3 / 2)) (frameD (FP.fin (3 / 2)))
      (3 / 2) 0).2.2.2.2.2.1 rfl rfl (by norm_num)
  have hltb : FP.ltb (elapsed (stateAt (FP.fin 0) 5) (FP.fin (1 / 2))) (FP.fin 1) = true := by
    show FP.ltb (binary64.round (1 / 2 - 0)) (FP.fin 1) = true
    rw [sub_zero, binary64.round_of_isRep binary64_isRep_half]
    simp [FP.ltb]
    norm_num
  have hlo : (-2147483648 : ℤ) ≤ (stateAt (FP.fin 0) 5).nbFrames := by
    show (-2147483648 : ℤ) ≤ 5
    norm_num
  have hhi : (stateAt (FP.fin 0) 5).nbFrames < 2147483647 := by
    show (5 : ℤ) < 2147483647
    norm_num
  ⟨(timingStep_frame_count (stateAt (FP.fin 0) 5) (FP.fin (1 / 2)) (frameD (FP.fin (1 / 2)))
      (1 / 2) 0).1 hlt hlo hhi,
   (timingStep_frame_count (stateAt (FP.fin 0) 5) (FP.fin (3 / 2)) (frameD (FP.fin (3 / 2)))
      (3 / 2) 0).2.1 hge,
   (timingStep_frame_count (stateAt (FP.fin 0) 5) (FP.fin (1 / 2)) (frameD (FP.fin (1 / 2)))
      (1 / 2) 0).2.2.1 hlt hlo hhi,
   (timingStep_frame_count (stateAt (FP.fin 0) 5) (FP.fin (3 / 2)) (frameD (FP.fin (3 / 2)))
      (3 / 2) 0).2.2.2.1 hge,
   hlt, hge,
   (timingStep_frame_count (stateAt (FP.fin 0) 5) (FP.fin (1 / 2)) (frameD (FP.fin (1 / 2)))
      (1 / 2) 0).2.2.2.2.2.2.2 rfl (by rw [zero_add]; exact binary64_isRep_one),
   hltb,
   (timingStep_frame_count (stateAt (FP.fin 0) 5) (FP.fin (1 / 2)) (frameD (FP.fin (1 / 2)))
      (1 / 2) 0).2.2.2.2.1 hltb⟩


/-! ## Order of movement and step computation -/

theorem binary32_add_zero {x : ℚ} (hx : binary32.isRep x) :
    FP.add binary32 (FP.fin x) (FP.fin 0) = FP.fin x := by
  show binary32.round (x + 0) = FP.fin x
  rw [add_zero]
  exact binary32.round_of_isRep hx

theorem binary32_sub_zero {x : ℚ} (hx : binary32.isRep x) :
    FP.sub binary32 (FP.fin x) (FP.fin 0) = FP.fin x := by
  show binary32.round (x - 0) = FP.fin x
  rw [sub_zero]
  exact binary32.round_of_isRep hx

/-- From the state at loop entry `processInput` leaves both offsets as they are,
whatever keys are held: the step is still `0.0`. -/
theorem processInput_initState (k : Keys) (t0 : FP) :
    (processInput ieee k (initState ieee t0)).xOffset = (initState ieee t0).xOffset ∧
    (processInput ieee k (initState ieee t0)).yOffset = (initState ieee t0).yOffset := by
  have hx : (initState ieee t0).xOffset = FP.fin (1 / 4) := ieee_litF_quarter
  have hy : (initState ieee t0).yOffset = FP.fin (-1) := ieee_litF_negOne
  have hm : (initState ieee t0).moveBy = FP.fin 0 := ieee_litF_zero
  have a1 := binary32_add_zero binary32_isRep_quarter
  have a2 := binary32_sub_zero binary32_isRep_quarter
  have b1 := binary32_add_zero (binary32.isRep_neg binary32_isRep_one)
  have b2 := binary32_sub_zero (binary32.isRep_neg binary32_isRep_one)
  constructor
  · rw [processInput_xOffset_cases, hx, hm]
    show (if (k.a || k.left) = true then
        (if (k.d || k.right) = true then
          FP.add binary32 (FP.sub binary32 (FP.fin (1 / 4)) (FP.fin 0)) (FP.fin 0)
         else FP.sub binary32 (FP.fin (1 / 4)) (FP.fin 0))
      else (if (k.d || k.right) = true then FP.add binary32 (FP.fin (1 / 4)) (FP.fin 0)
        else FP.fin (1 / 4))) = FP.fin (1 / 4)
    rw [a2, a1]
    split_ifs <;> rfl
  · rw [processInput_yOffset_cases, hy, hm]
    show (if (k.w || k.up) = true then
        (if (k.s || k.down) = true then
          FP.sub binary32 (FP.add binary32 (FP.fin (-1)) (FP.fin 0)) (FP.fin 0)
         else FP.add binary32 (FP.fin (-1)) (FP.fin 0))
      else (if (k.s || k.down) = true then FP.sub binary32 (FP.fin (-1)) (FP.fin 0)
        else FP.fin (-1))) = FP.fin (-1)
    rw [b1, b2]
    split_ifs <;> rfl

/-- C8 (as stated, refuted): in the first iteration of the program with D held and the
clock at `lastTime + 1/2`, the iteration computes `moveBy = 0.5` but `xOffset` stays at
`0.25`: the movement was applied before `moveBy` was recomputed. -/
theorem movement_precedes_moveBy_update :
    (loopBody ieee (initState ieee (FP.fin 0)) (frameD (FP.fin (1 / 2)))).moveBy =
      FP.fin (1 / 2) ∧
    (initState ieee (FP.fin 0)).xOffset = FP.fin (1 / 4) ∧
    (loopBody ieee (initState ieee (FP.fin 0)) (frameD (FP.fin (1 / 2)))).xOffset =
      (initState ieee (FP.fin 0)).xOffset ∧
    (loopBody ieee (initState ieee (FP.fin 0)) (frameD (FP.fin (1 / 2)))).xOffset ≠
      FP.add binary32 (initState ieee (FP.fin 0)).xOffset
        (loopBody ieee (initState ieee (FP.fin 0)) (frameD (FP.fin (1 / 2)))).moveBy := by
  have hm : (loopBody ieee (initState ieee (FP.fin 0)) (frameD (FP.fin (1 / 2)))).moveBy =
      FP.fin (1 / 2) := by
    rw [loopBody_moveBy]
    have hw : wrap32 ((initState ieee (FP.fin 0)).nbFrames + 1) = 1 := by
      simp [initState, wrap32]
    rw [hw, ieee_ofIntD_pos (by norm_num) (by norm_num)]
    show FP.cast binary32 (FP.div binary64 (binary64.round (1 / 2 - 0)) (FP.fin ((1 : ℤ) : ℚ))) =
      FP.fin (1 / 2)
    rw [sub_zero, binary64.round_of_isRep binary64_isRep_half]
    rw [FP.div_fin_fin binary64 _ _ (by norm_num)]
    have h1 : (1 : ℚ) / 2 / ((1 : ℤ) : ℚ) = 1 / 2 := by norm_num
    rw [h1, binary64.round_of_isRep binary64_isRep_half]
    exact binary32.round_of_isRep binary32_isRep_half
  have hx0 : (initState ieee (FP.fin 0)).xOffset = FP.fin (1 / 4) := ieee_litF_quarter
  have hx : (loopBody ieee (initState ieee (FP.fin 0)) (frameD (FP.fin (1 / 2)))).xOffset =
      (initState ieee (FP.fin 0)).xOffset := by
    rw [loopBody_xOffset]
    exact (processInput_initState _ _).1
  refine ⟨hm, hx0, hx, ?_⟩
  rw [hx, hm, hx0]
  have hs : FP.add binary32 (FP.fin (1 / 4)) (FP.fin (1 / 2)) = FP.fin (3 / 4) := by
    show binary32.round (1 / 4 + 1 / 2) = FP.fin (3 / 4)
    rw [show (1 : ℚ) / 4 + 1 / 2 = 3 / 4 by norm_num]
    exact binary32.round_of_isRep
      (binary32.isRep_dyadic (3 / 4) (-1) 12582912 (by norm_num) (by norm_num)
        (by norm_num [binary32]) (by norm_num [binary32])
        (by have := binary32_maxFin_large; linarith))
  rw [hs]
  intro h
  have := FP.fin.inj h
  norm_num at this

/-- C8 (amended): in every iteration the held-key movement is applied first, as `float`
additions and subtractions of the `moveBy` the state held on entry (the value computed by
the previous iteration, `0.0` in the first one, which therefore moves nothing), and only
then is `moveBy` recomputed as the `float` conversion of the `double` quotient of the
elapsed time by the incremented frame counter; so the offset change of an iteration is
made with the step computed one iteration earlier. -/
theorem loopBody_moves_by_previous_moveBy (st : State FP FP) (f g : Frame FP) (t0 : FP) :
    (loopBody ieee st f).xOffset =
      (if f.keys.a || f.keys.left then
        (if f.keys.d || f.keys.right then
          FP.add binary32 (FP.sub binary32 st.xOffset st.moveBy) st.moveBy
         else FP.sub binary32 st.xOffset st.moveBy)
       else (if f.keys.d || f.keys.right then FP.add binary32 st.xOffset st.moveBy
         else st.xOffset)) ∧
    (loopBody ieee st f).yOffset =
      (if f.keys.w || f.keys.up then
        (if f.keys.s || f.keys.down then
          FP.sub binary32 (FP.add binary32 st.yOffset st.moveBy) st.moveBy
         else FP.add binary32 st.yOffset st.moveBy)
       else (if f.keys.s || f.keys.down then FP.sub binary32 st.yOffset st.moveBy
         else st.yOffset)) ∧
    (loopBody ieee st f).moveBy =
      FP.cast binary32
        (FP.div binary64 (elapsed st f.currentTime) (ieee.ofIntD (wrap32 (st.nbFrames + 1)))) ∧
    (loopBody ieee (loopBody ieee st f) g).xOffset =
      (if g.keys.a || g.keys.left then
        (if g.keys.d || g.keys.right then
          FP.add binary32 (FP.sub binary32 (loopBody ieee st f).xOffset (loopBody ieee st f).moveBy)
            (loopBody ieee st f).moveBy
         else FP.sub binary32 (loopBody ieee st f).xOffset (loopBody ieee st f).moveBy)
       else (if g.keys.d || g.keys.right then
          FP.add binary32 (loopBody ieee st f).xOffset (loopBody ieee st f).moveBy
         else (loopBody ieee st f).xOffset)) ∧
    (loopBody ieee (loopBody ieee st f) g).yOffset =
      (if g.keys.w || g.keys.up then
        (if g.keys.s || g.keys.down then
          FP.sub binary32 (FP.add binary32 (loopBody ieee st f).yOffset (loopBody ieee st f).moveBy)
            (loopBody ieee st f).moveBy
         else FP.add binary32 (loopBody ieee st f).yOffset (loopBody ieee st f).moveBy)
       else (if g.keys.s || g.keys.down then
          FP.sub binary32 (loopBody ieee st f).yOffset (loopBody ieee st f).moveBy
         else (loopBody ieee st f).yOffset)) ∧
    (loopBody ieee (initState ieee t0) f).xOffset = (initState ieee t0).xOffset ∧
    (loopBody ieee (initState ieee t0) f).yOffset = (initState ieee t0).yOffset := by
  refine ⟨?_, ?_, loopBody_moveBy ieee st f, ?_, ?_, ?_, ?_⟩
  · rw [loopBody_xOffset, processInput_xOffset_cases]; rfl
  · rw [loopBody_yOffset, processInput_yOffset_cases]; rfl
  · rw [loopBody_xOffset, processInput_xOffset_cases]; rfl
  · rw [loopBody_yOffset, processInput_yOffset_cases]; rfl
  · rw [loopBody_xOffset]; exact (processInput_initState _ _).1
  · rw [loopBody_yOffset]; exact (processInput_initState _ _).2


/-! ## Size of the step within a window -/

/-- While no iteration resets and the counter stays below `INT_MAX`, `lastTime` stays put
and `nbFrames` counts the iterations. -/
theorem foldl_same_window (frames : List (Frame FP)) (st : State FP FP)
    (hn : 0 ≤ st.nbFrames) (hlen : st.nbFrames + frames.length ≤ 2147483647)
    (h : ∀ f ∈ frames, FP.leb (FP.fin 1) (elapsed st f.currentTime) = false) :
    (frames.foldl (loopBody ieee) st).lastTime = st.lastTime ∧
    (frames.foldl (loopBody ieee) st).nbFrames = st.nbFrames + frames.length := by
  induction frames generalizing st with
  | nil => simp
  | cons f rest ih =>
    simp only [List.length_cons] at hlen
    push_cast at hlen
    have hf : ieee.geD (ieee.subD f.currentTime st.lastTime) (ieee.litD 1.0) = false := by
      rw [ieee_geD_litD]; exact h f (List.mem_cons_self _ _)
    obtain ⟨hnb, hlt⟩ := loopBody_same_window ieee st f hf
    rw [wrap32_of_range (by omega) (by omega)] at hnb
    obtain ⟨h1, h2⟩ := ih (loopBody ieee st f) (by rw [hnb]; omega) (by rw [hnb]; omega)
      (fun g hg => by
        have := h g (List.mem_cons_of_mem _ hg)
        simpa [elapsed, hlt] using this)
    refine ⟨by simpa [hlt] using h1, ?_⟩
    simp only [List.foldl_cons, h2, hnb, List.length_cons]
    push_cast
    ring

/-- The step computed by an iteration whose elapsed time is the finite `double` `a` and
whose incremented counter is the positive `int` `n`. -/
theorem loopBody_moveBy_fin (st : State FP FP) (f : Frame FP) (a : ℚ)
    (ha : elapsed st f.currentTime = FP.fin a) (hn : 0 ≤ st.nbFrames)
    (hhi : st.nbFrames < 2147483647) :
    (loopBody ieee st f).moveBy =
      FP.cast binary32 (binary64.round (a / ((st.nbFrames : ℚ) + 1))) := by
  rw [loopBody_moveBy, wrap32_of_range (by omega) (by omega),
    ieee_ofIntD_pos (by omega) (by omega)]
  show FP.cast binary32 (FP.div binary64 (elapsed st f.currentTime) _) = _
  have hne : (((st.nbFrames + 1 : ℤ)) : ℚ) ≠ 0 := by
    have : (0 : ℚ) ≤ (st.nbFrames : ℚ) := by exact_mod_cast hn
    push_cast
    linarith
  rw [ha, FP.div_fin_fin binary64 _ _ hne]
  push_cast
  rfl

theorem binary64_isRep_eighth : binary64.isRep (1 / 8) :=
  binary64.isRep_dyadic (1 / 8) (-3) 4503599627370496 (by norm_num) (by norm_num)
    (by norm_num [binary64]) (by norm_num [binary64])
    (by have := binary64_maxFin_large; linarith)

theorem binary64_isRep_seven_eighths : binary64.isRep (7 / 8) :=
  binary64.isRep_dyadic (7 / 8) (-1) 7881299347898368 (by norm_num) (by norm_num)
    (by norm_num [binary64]) (by norm_num [binary64])
    (by have := binary64_maxFin_large; linarith)

theorem binary64_isRep_seven_sixteenths : binary64.isRep (7 / 16) :=
  binary64.isRep_dyadic (7 / 16) (-2) 7881299347898368 (by norm_num) (by norm_num)
    (by norm_num [binary64]) (by norm_num [binary64])
    (by have := binary64_maxFin_large; linarith)

theorem binary32_isRep_eighth : binary32.isRep (1 / 8) :=
  binary32.isRep_dyadic (1 / 8) (-3) 8388608 (by norm_num) (by norm_num)
    (by norm_num [binary32]) (by norm_num [binary32])
    (by have := binary32_maxFin_large; linarith)

theorem binary32_isRep_seven_sixteenths : binary32.isRep (7 / 16) :=
  binary32.isRep_dyadic (7 / 16) (-2) 14680064 (by norm_num) (by norm_num)
    (by norm_num [binary32]) (by norm_num [binary32])
    (by have := binary32_maxFin_large; linarith)

/-- C9 (as stated, refuted): from the state at loop entry with `lastTime = 0`, the clock
readings `0.125` then `0.875` are non-decreasing and both iterations lie in the same
window (no reset, `lastTime` still `0`); the second iteration divides by the larger
frame count `2` and yet computes the larger step, `0.4375` against `0.125`. -/
theorem moveBy_can_grow_within_window :
    FP.leb (initState ieee (FP.fin 0)).lastTime (frameIdle (FP.fin (1 / 8))).currentTime = true ∧
    FP.leb (frameIdle (FP.fin (1 / 8))).currentTime
      (frameIdle (FP.fin (7 / 8))).currentTime = true ∧
    (loopBody ieee (initState ieee (FP.fin 0)) (frameIdle (FP.fin (1 / 8)))).lastTime =
      (initState ieee (FP.fin 0)).lastTime ∧
    divisorAt ieee (initState ieee (FP.fin 0)) [] = 1 ∧
    divisorAt ieee (initState ieee (FP.fin 0)) [frameIdle (FP.fin (1 / 8))] = 2 ∧
    moveByAt ieee (initState ieee (FP.fin 0)) [] (frameIdle (FP.fin (1 / 8))) = FP.fin (1 / 8) ∧
    moveByAt ieee (initState ieee (FP.fin 0)) [frameIdle (FP.fin (1 / 8))]
      (frameIdle (FP.fin (7 / 8))) = FP.fin (7 / 16) ∧
    FP.ltb (moveByAt ieee (initState ieee (FP.fin 0)) [frameIdle (FP.fin (1 / 8))]
        (frameIdle (FP.fin (7 / 8))))
      (moveByAt ieee (initState ieee (FP.fin 0)) [] (frameIdle (FP.fin (1 / 8)))) = false := by
  have he1 : elapsed (initState ieee (FP.fin 0)) (frameIdle (FP.fin (1 / 8))).currentTime =
      FP.fin (1 / 8) := by
    show binary64.round (1 / 8 - 0) = FP.fin (1 / 8)
    rw [sub_zero]; exact binary64.round_of_isRep binary64_isRep_eighth
  have hw : ieee.geD (ieee.subD (frameIdle (FP.fin (1 / 8))).currentTime
      (initState ieee (FP.fin 0)).lastTime) (ieee.litD 1.0) = false := by
    rw [ieee_geD_litD]
    show FP.leb (FP.fin 1) (elapsed (initState ieee (FP.fin 0))
      (frameIdle (FP.fin (1 / 8))).currentTime) = false
    rw [he1]
    simp [FP.leb]
    norm_num
  obtain ⟨hn, hl⟩ := loopBody_same_window ieee (initState ieee (FP.fin 0))
    (frameIdle (FP.fin (1 / 8))) hw
  have hn' : (loopBody ieee (initState ieee (FP.fin 0)) (frameIdle (FP.fin (1 / 8)))).nbFrames =
      1 := by
    rw [hn]; simp [initState, wrap32]
  have he2 : elapsed (loopBody ieee (initState ieee (FP.fin 0)) (frameIdle (FP.fin (1 / 8))))
      (frameIdle (FP.fin (7 / 8))).currentTime = FP.fin (7 / 8) := by
    show FP.sub binary64 (FP.fin (7 / 8)) _ = FP.fin (7 / 8)
    rw [hl]
    show binary64.round (7 / 8 - 0) = FP.fin (7 / 8)
    rw [sub_zero]; exact binary64.round_of_isRep binary64_isRep_seven_eighths
  have h1 : moveByAt ieee (initState ieee (FP.fin 0)) [] (frameIdle (FP.fin (1 / 8))) =
      FP.fin (1 / 8) := by
    show (loopBody ieee (initState ieee (FP.fin 0)) (frameIdle (FP.fin (1 / 8)))).moveBy = _
    rw [loopBody_moveBy_fin _ _ (1 / 8) he1 (by simp [initState]) (by simp [initState])]
    have : (1 : ℚ) / 8 / (((initState ieee (FP.fin 0)).nbFrames : ℚ) + 1) = 1 / 8 := by
      simp [initState]
    rw [this, binary64.round_of_isRep binary64_isRep_eighth]
    exact binary32.round_of_isRep binary32_isRep_eighth
  have h2 : moveByAt ieee (initState ieee (FP.fin 0)) [frameIdle (FP.fin (1 / 8))]
      (frameIdle (FP.fin (7 / 8))) = FP.fin (7 / 16) := by
    show (loopBody ieee (loopBody ieee (initState ieee (FP.fin 0)) (frameIdle (FP.fin (1 / 8))))
      (frameIdle (FP.fin (7 / 8)))).moveBy = _
    rw [loopBody_moveBy_fin _ _ (7 / 8) he2 (by rw [hn']; norm_num) (by rw [hn']; norm_num), hn']
    have : (7 : ℚ) / 8 / (((1 : ℤ) : ℚ) + 1) = 7 / 16 := by norm_num
    rw [this, binary64.round_of_isRep binary64_isRep_seven_sixteenths]
    exact binary32.round_of_isRep binary32_isRep_seven_sixteenths
  refine ⟨?_, ?_, hl, ?_, ?_, h1, h2, ?_⟩
  · simp [initState, frameIdle, FP.leb]
  · simp [frameIdle, FP.leb]; norm_num
  · simp [divisorAt, initState, wrap32]
  · simp only [divisorAt, List.foldl_cons, List.foldl_nil, hn']
    simp [wrap32]
  · rw [h1, h2]
    simp [FP.ltb]
    norm_num

/-- C9 (amended): for two iterations of the same window (no reset in the earlier one nor
between them, counter non-negative and below `INT_MAX` throughout) whose `double` elapsed
times are the finite values `a` (earlier) and `b` (later, `k + 1` iterations on), the
divisor grows from `n + 1` to `n + k + 2` and the steps are the `float` conversions of
the `double` quotients `a / (n + 1)` and `b / (n + k + 2)`.  The later step is at most
the earlier one whenever `b * (n + 1) ≤ a * (n + k + 2)`, in particular whenever the
elapsed time has not grown and is non-negative; it is strictly smaller only if
`b * (n + 1) < a * (n + k + 2)`. -/
theorem moveBy_within_window (st : State FP FP) (fi : Frame FP) (mid : List (Frame FP))
    (fj : Frame FP) (a b : ℚ)
    (hn : 0 ≤ st.nbFrames)
    (hlen : st.nbFrames + mid.length + 2 ≤ 2147483647)
    (hno : ∀ f ∈ fi :: mid, FP.leb (FP.fin 1) (elapsed st f.currentTime) = false)
    (ha : elapsed st fi.currentTime = FP.fin a)
    (hb : elapsed st fj.currentTime = FP.fin b) :
    divisorAt ieee st [] = st.nbFrames + 1 ∧
    divisorAt ieee st (fi :: mid) = st.nbFrames + mid.length + 2 ∧
    divisorAt ieee st [] < divisorAt ieee st (fi :: mid) ∧
    moveByAt ieee st [] fi =
      FP.cast binary32 (binary64.round (a / ((st.nbFrames : ℚ) + 1))) ∧
    moveByAt ieee st (fi :: mid) fj =
      FP.cast binary32 (binary64.round (b / ((st.nbFrames : ℚ) + (mid.length : ℚ) + 2))) ∧
    (b * ((st.nbFrames : ℚ) + 1) ≤ a * ((st.nbFrames : ℚ) + (mid.length : ℚ) + 2) →
      FP.leb (moveByAt ieee st (fi :: mid) fj) (moveByAt ieee st [] fi) = true) ∧
    (FP.ltb (moveByAt ieee st (fi :: mid) fj) (moveByAt ieee st [] fi) = true →
      b * ((st.nbFrames : ℚ) + 1) < a * ((st.nbFrames : ℚ) + (mid.length : ℚ) + 2)) ∧
    (b ≤ a → 0 ≤ a →
      FP.leb (moveByAt ieee st (fi :: mid) fj) (moveByAt ieee st [] fi) = true) := by
  have hq : (0 : ℚ) ≤ (st.nbFrames : ℚ) := by exact_mod_cast hn
  have hk : (0 : ℚ) ≤ (mid.length : ℚ) := Nat.cast_nonneg _
  obtain ⟨hl, hc⟩ := foldl_same_window (fi :: mid) st hn
    (by simp only [List.length_cons]; push_cast; omega) hno
  simp only [List.length_cons] at hc
  push_cast at hc
  have hd1 : divisorAt ieee st [] = st.nbFrames + 1 := by
    simp only [divisorAt, List.foldl_nil]
    exact wrap32_of_range (by omega) (by omega)
  have hd2 : divisorAt ieee st (fi :: mid) = st.nbFrames + mid.length + 2 := by
    simp only [divisorAt, hc]
    rw [wrap32_of_range (by omega) (by omega)]
    ring
  have h1 : moveByAt ieee st [] fi =
      FP.cast binary32 (binary64.round (a / ((st.nbFrames : ℚ) + 1))) := by
    simp only [moveByAt, List.foldl_nil]
    exact loopBody_moveBy_fin st fi a ha hn (by omega)
  have h2 : moveByAt ieee st (fi :: mid) fj =
      FP.cast binary32 (binary64.round (b / ((st.nbFrames : ℚ) + (mid.length : ℚ) + 2))) := by
    simp only [moveByAt]
    have hb' : elapsed ((fi :: mid).foldl (loopBody ieee) st) fj.currentTime = FP.fin b := by
      show ieee.subD fj.currentTime ((fi :: mid).foldl (loopBody ieee) st).lastTime = _
      rw [hl]
      exact hb
    rw [loopBody_moveBy_fin _ fj b hb' (by rw [hc]; omega) (by rw [hc]; omega), hc]
    push_cast
    congr 3
    ring
  have hpos1 : (0 : ℚ) < (st.nbFrames : ℚ) + 1 := by linarith
  have hpos2 : (0 : ℚ) < (st.nbFrames : ℚ) + (mid.length : ℚ) + 2 := by linarith
  have hle : b * ((st.nbFrames : ℚ) + 1) ≤ a * ((st.nbFrames : ℚ) + (mid.length : ℚ) + 2) →
      FP.leb (moveByAt ieee st (fi :: mid) fj) (moveByAt ieee st [] fi) = true := by
    intro h
    rw [h1, h2]
    apply FP.cast_mono
    apply binary64.round_mono
    rw [div_le_div_iff₀ hpos2 hpos1]
    exact h
  refine ⟨hd1, hd2, by rw [hd1, hd2]; omega, h1, h2, hle, ?_, ?_⟩
  · intro hlt
    by_contra hcon
    push_neg at hcon
    have hge : FP.leb (moveByAt ieee st [] fi) (moveByAt ieee st (fi :: mid) fj) = true := by
      rw [h1, h2]
      apply FP.cast_mono
      apply binary64.round_mono
      rw [div_le_div_iff₀ hpos1 hpos2]
      exact hcon
    rw [FP.not_ltb_of_leb hge] at hlt
    exact Bool.false_ne_true hlt
  · intro hba ha0
    apply hle
    nlinarith

theorem binary64_isRep_sixteenth : binary64.isRep (1 / 16) :=
  binary64.isRep_dyadic (1 / 16) (-4) 4503599627370496 (by norm_num) (by norm_num)
    (by norm_num [binary64]) (by norm_num [binary64])
    (by have := binary64_maxFin_large; linarith)

theorem binary32_isRep_sixteenth : binary32.isRep (1 / 16) :=
  binary32.isRep_dyadic (1 / 16) (-4) 8388608 (by norm_num) (by norm_num)
    (by norm_num [binary32]) (by norm_num [binary32])
    (by have := binary32_maxFin_large; linarith)

theorem moveBy_within_window_witness :
    FP.leb
      (moveByAt ieee (initState ieee (FP.fin 0)) [frameIdle (FP.fin (1 / 8))]
        (frameIdle (FP.fin (1 / 8))))
      (moveByAt ieee (initState ieee (FP.fin 0)) [] (frameIdle (FP.fin (1 / 8)))) = true ∧
    FP.ltb
      (moveByAt ieee (initState ieee (FP.fin 0)) [frameIdle (FP.fin (1 / 8))]
        (frameIdle (FP.fin (1 / 8))))
      (moveByAt ieee (initState ieee (FP.fin 0)) [] (frameIdle (FP.fin (1 / 8)))) = true ∧
    (1 / 8 : ℚ) * (((initState ieee (FP.fin 0)).nbFrames : ℚ) + 1) <
      1 / 8 * (((initState ieee (FP.fin 0)).nbFrames : ℚ) + (([] : List (Frame FP)).length : ℚ) + 2) :=
  have he : elapsed (initState ieee (FP.fin 0)) (FP.fin (1 / 8)) = FP.fin (1 / 8) := by
    show binary64.round (1 / 8 - 0) = FP.fin (1 / 8)
    rw [sub_zero]; exact binary64.round_of_isRep binary64_isRep_eighth
  have h0 : (initState ieee (FP.fin 0)).nbFrames = 0 := rfl
  have hw := moveBy_within_window (initState ieee (FP.fin 0)) (frameIdle (FP.fin (1 / 8)))
    [] (frameIdle (FP.fin (1 / 8))) (1 / 8) (1 / 8)
    (by rw [h0])
    (by rw [h0]; simp)
    (by
      intro f hf
      rw [List.mem_singleton.mp hf]
      show FP.leb (FP.fin 1) (elapsed (initState ieee (FP.fin 0)) (FP.fin (1 / 8))) = false
      rw [he]
      simp [FP.leb]
      norm_num)
    he he
  have hlt : FP.ltb
      (moveByAt ieee (initState ieee (FP.fin 0)) [frameIdle (FP.fin (1 / 8))]
        (frameIdle (FP.fin (1 / 8))))
      (moveByAt ieee (initState ieee (FP.fin 0)) [] (frameIdle (FP.fin (1 / 8)))) = true := by
    rw [hw.2.2.2.1, hw.2.2.2.2.1, h0]
    have e1 : (1 : ℚ) / 8 / (((0 : ℤ) : ℚ) + 1) = 1 / 8 := by norm_num
    have e2 : (1 : ℚ) / 8 / (((0 : ℤ) : ℚ) + (([] : List (Frame FP)).length : ℚ) + 2) = 1 / 16 := by
      norm_num
    rw [e1, e2, binary64.round_of_isRep binary64_isRep_eighth,
      binary64.round_of_isRep binary64_isRep_sixteenth]
    show FP.ltb (binary32.round (1 / 16)) (binary32.round (1 / 8)) = true
    rw [binary32.round_of_isRep binary32_isRep_eighth, binary32.round_of_isRep binary32_isRep_sixteenth]
    simp [FP.ltb]
    norm_num
  ⟨hw.2.2.2.2.2.2.2 (le_refl _) (by norm_num), hlt, hw.2.2.2.2.2.2.1 hlt⟩


/-! ## Safety of the division -/

end Lab1Graf
